import Mathlib

/-!
Prompt rendering and message decoding of `pkg/mcp/promptMessage.go`

A shallow embedding of `Prompt.Execute`, `Prompt.ValidateArguments` and
`PromptMessage.UnmarshalJSON`, followed by the properties proved about them.

Conventions of the embedding.

* A Go `string` is the list of its characters.  `strings.ReplaceAll` compares
  bytes; on text that is valid UTF-8 the matches it finds are the matches on
  characters, and the strings of the examples are ASCII.
* A Go `map[string]string` is the list of its entries, keys pairwise distinct
  (`ArgMap.WF`), in the order in which one `range` loop visits them.  Go leaves
  that order unspecified, so a statement about "the" result of a loop over a
  map is a statement about every permutation of the entries.
* A Go `error` is a value of `GoError`; `(string, error)` results are pairs
  whose second component is `none` for the `nil` error.
* A method with a pointer receiver that writes to it returns the receiver
  after the call next to its Go result.
* `data []byte` is the JSON text it holds, `none` when the bytes are not a
  JSON text; a `json.RawMessage` is the JSON value whose bytes it holds.  The
  limits of `encoding/json` on a JSON text are part of the embedding: arrays
  and objects nested deeper than 10000 are rejected by its scanner, and a
  number decoded into an `interface{}` has to be in the range of `float64`.
-/

namespace Mcp

/-! ## Strings, errors and maps -/

/-- Go strings, as character sequences. -/
abbrev GoString := List Char

/-- The opening brace of a placeholder. -/
def lbrace : Char := Char.ofNat 123

/-- The closing brace of a placeholder. -/
def rbrace : Char := Char.ofNat 125

/-- Go error values.  `errorf msg` is the error built by `fmt.Errorf` with the
formatted message `msg`.  The others are the errors of `encoding/json`:
`malformed` for data that is not a JSON text, `unexpectedEnd` for empty data,
`typeMismatch field` for a JSON value that does not fit the Go value it is
decoded into (`field` names the struct field, empty at top level),
`numberRange literal` for a number literal outside the range of `float64`
that is decoded into an `interface{}`, and `variant detail` for whatever else
a decoder of a content variant reports. -/
inductive GoError where
  | errorf (msg : GoString)
  | malformed
  | unexpectedEnd
  | typeMismatch (field : GoString)
  | numberRange (literal : GoString)
  | variant (detail : GoString)
  deriving DecidableEq, Repr

/-- Entries of a `map[string]string` in iteration order. -/
abbrev ArgMap := List (GoString × GoString)

/-- Keys of a map. -/
def ArgMap.keys (args : ArgMap) : List GoString := args.map Prod.fst

/-- A list of entries is a map when no key occurs twice. -/
def ArgMap.WF (args : ArgMap) : Prop := (ArgMap.keys args).Nodup

instance (args : ArgMap) : Decidable (ArgMap.WF args) := by
  unfold ArgMap.WF; infer_instance

/-- The two-valued index expression `_, ok := args[name]`: the `ok` flag. -/
def ArgMap.has (args : ArgMap) (name : GoString) : Bool :=
  (List.lookup name args).isSome

/-! ## `strings.ReplaceAll` -/

/-- Left-to-right scan of `strings.ReplaceAll` for a non-empty `old`: at a
position where `old` starts, `new` is emitted and the scan resumes after the
match (the counter holds the characters of the match still to be skipped);
elsewhere the character is copied. -/
def ReplaceAll.scan (old new : GoString) : Nat → GoString → GoString
  | _, [] => []
  | skip + 1, _ :: cs => ReplaceAll.scan old new skip cs
  | 0, c :: cs =>
    if old <+: c :: cs then new ++ ReplaceAll.scan old new (old.length - 1) cs
    else c :: ReplaceAll.scan old new 0 cs

/-- The Go library function `strings.ReplaceAll(s, old, new)`: every
non-overlapping instance of `old` in `s`, found from the left, is replaced by
`new`.  An empty `old` matches before every character and at the end. -/
def ReplaceAll (s old new : GoString) : GoString :=
  if old = [] then new ++ s.flatMap (fun c => c :: new)
  else ReplaceAll.scan old new 0 s

/-! ## Prompts -/

/-- Go struct `PromptArgument`. -/
structure PromptArgument where
  Name : GoString
  Description : GoString
  Required : Bool
  deriving DecidableEq, Repr

/-- Go struct `Prompt`. -/
structure Prompt where
  Name : GoString
  Description : GoString
  Arguments : List PromptArgument
  Template : GoString
  deriving DecidableEq, Repr

/-- The message formatted by `fmt.Errorf("missing required argument: %s", name)`. -/
def missingArgument (name : GoString) : GoError :=
  GoError.errorf ("missing required argument: ".toList ++ name)

/-- The placeholder `"{" + name + "}"` built in the substitution loop. -/
def placeholder (name : GoString) : GoString := lbrace :: (name ++ [rbrace])

/-- First loop of `Prompt.Execute` (lines 41-47): the error of the early
`return`, or `none` when the loop runs to its end. -/
def Execute.check (args : ArgMap) : List PromptArgument → Option GoError
  | [] => none
  | arg :: rest =>
    if arg.Required then
      if ArgMap.has args arg.Name then Execute.check args rest
      else some (missingArgument arg.Name)
    else Execute.check args rest

/-- Second loop of `Prompt.Execute` (lines 49-52): `result` is rewritten once
per entry, in iteration order. -/
def Execute.substitute (result : GoString) : ArgMap → GoString
  | [] => result
  | (name, value) :: rest =>
    Execute.substitute (ReplaceAll result (placeholder name) value) rest

/-- `func (p *Prompt) Execute(args map[string]string) (string, error)`. -/
def Prompt.Execute (p : Prompt) (args : ArgMap) : GoString × Option GoError :=
  match Execute.check args p.Arguments with
  | some err => ([], some err)
  | none => (Execute.substitute p.Template args, none)

/-- The loop of `Prompt.ValidateArguments` (lines 58-64). -/
def ValidateArguments.loop (args : ArgMap) : List PromptArgument → Option GoError
  | [] => none
  | arg :: rest =>
    if arg.Required then
      if ArgMap.has args arg.Name then ValidateArguments.loop args rest
      else some (missingArgument arg.Name)
    else ValidateArguments.loop args rest

/-- `func (p *Prompt) ValidateArguments(args map[string]string) error`. -/
def Prompt.ValidateArguments (p : Prompt) (args : ArgMap) : Option GoError :=
  ValidateArguments.loop args p.Arguments

/-- Literal strings of the examples. -/
def str (s : String) : GoString := s.toList

/-! ## Well-formed templates and the substitution the specification describes -/

/-- A string without `{` and without `}`. -/
def BraceFree (s : GoString) : Prop := lbrace ∉ s ∧ rbrace ∉ s

instance (s : GoString) : Decidable (BraceFree s) := by
  unfold BraceFree; infer_instance

/-- Keys and values of a map are all brace-free. -/
def ArgMap.BraceFree (args : ArgMap) : Prop :=
  ∀ kv ∈ args, Mcp.BraceFree kv.1 ∧ Mcp.BraceFree kv.2

instance (args : ArgMap) : Decidable (ArgMap.BraceFree args) := by
  unfold ArgMap.BraceFree; infer_instance

/-- Keys of a map are all brace-free. -/
def ArgMap.KeysBraceFree (args : ArgMap) : Prop :=
  ∀ kv ∈ args, Mcp.BraceFree kv.1

instance (args : ArgMap) : Decidable (ArgMap.KeysBraceFree args) := by
  unfold ArgMap.KeysBraceFree; infer_instance

/-- Every required argument of the list is a key of the map. -/
def Satisfies (args : ArgMap) (l : List PromptArgument) : Prop :=
  ∀ a ∈ l, a.Required = true → a.Name ∈ ArgMap.keys args

instance (args : ArgMap) (l : List PromptArgument) : Decidable (Satisfies args l) := by
  unfold Satisfies; infer_instance

/-- The pieces of a flat template: literal text, or a placeholder `{name}`. -/
inductive Segment where
  | text (t : GoString)
  | hole (name : GoString)
  deriving DecidableEq, Repr

/-- The characters a segment is written with, braces of a placeholder apart. -/
def Segment.chars : Segment → GoString
  | Segment.text t => t
  | Segment.hole n => n

/-- The template text of a segment. -/
def Segment.flatten : Segment → GoString
  | Segment.text t => t
  | Segment.hole n => placeholder n

/-- The template text of a sequence of segments. -/
def flatten : List Segment → GoString
  | [] => []
  | s :: rest => s.flatten ++ flatten rest

/-- A sequence of brace-free text and well-formed placeholders: no segment
carries a brace of its own, so braces are neither nested nor unbalanced. -/
def WellFormed (segs : List Segment) : Prop := ∀ s ∈ segs, BraceFree s.chars

instance (segs : List Segment) : Decidable (WellFormed segs) := by
  unfold WellFormed; infer_instance

/-- What the specification asks of one segment: a placeholder whose name is a
key is replaced by the value of that key, anything else is kept. -/
def Segment.fill (args : ArgMap) : Segment → Segment
  | Segment.text t => Segment.text t
  | Segment.hole n =>
    match List.lookup n args with
    | some v => Segment.text v
    | none => Segment.hole n

/-- What one pass of the substitution loop, for the entry `(k, v)`, does to a
segment: a placeholder named `k` becomes the text `v`. -/
def Segment.fillOne (k v : GoString) : Segment → Segment
  | Segment.text t => Segment.text t
  | Segment.hole n => if n = k then Segment.text v else Segment.hole n

/-- The rendering the specification describes for a flat template. -/
def render (args : ArgMap) (segs : List Segment) : GoString :=
  flatten (segs.map (Segment.fill args))

/-- The first entry of the map whose placeholder starts the string. -/
def placeholderAt (args : ArgMap) (s : GoString) : Option (GoString × GoString) :=
  args.find? (fun kv => decide (placeholder kv.1 <+: s))

/-- One scan over the original text in which every placeholder token of a key
is replaced by the value of that key; replaced text is never looked at again. -/
def replaceOriginal.scan (args : ArgMap) : Nat → GoString → GoString
  | _, [] => []
  | skip + 1, _ :: cs => replaceOriginal.scan args skip cs
  | 0, c :: cs =>
    match placeholderAt args (c :: cs) with
    | some kv => kv.2 ++ replaceOriginal.scan args (kv.1.length + 1) cs
    | none => c :: replaceOriginal.scan args 0 cs

/-- The non-recursive substitution of the specification: the original
placeholder tokens of the template, and only those, are replaced. -/
def replaceOriginal (template : GoString) (args : ArgMap) : GoString :=
  replaceOriginal.scan args 0 template

/-! ## JSON documents and `PromptMessage.UnmarshalJSON` -/

/-- JSON texts, as `encoding/json` reads them.  The members of an object are
kept in document order; a name may occur more than once. -/
inductive JSON where
  | null
  | bool (b : Bool)
  | number (literal : GoString)
  | string (s : GoString)
  | array (items : List JSON)
  | object (members : List (GoString × JSON))

/-- Go type `json.RawMessage`: an undecoded JSON value, `none` for the nil slice. -/
abbrev RawMessage := Option JSON

/-! ### Limits of `encoding/json` -/

mutual
/-- How deep arrays and objects are nested in a JSON text: 0 for a literal, 1
for an array or object of literals. -/
def JSON.depth : JSON → Nat
  | JSON.array items => itemsDepth items + 1
  | JSON.object members => membersDepth members + 1
  | _ => 0
/-- The deepest nesting among the items of an array. -/
def itemsDepth : List JSON → Nat
  | [] => 0
  | j :: js => max (JSON.depth j) (itemsDepth js)
/-- The deepest nesting among the members of an object. -/
def membersDepth : List (GoString × JSON) → Nat
  | [] => 0
  | (_, j) :: ms => max (JSON.depth j) (membersDepth ms)
end

/-- The constant `maxNestingDepth` of the scanner of `encoding/json`: a text
with more arrays and objects open at once is rejected. -/
def maxNestingDepth : Nat := 10000

/-- The number a run of decimal digits writes. -/
def digitsValue (digits : GoString) : Nat :=
  digits.foldl (fun n c => 10 * n + (c.toNat - 48)) 0

/-- The exponent part of a number literal: nothing, or `e` or `E`, an optional
sign and digits. -/
def parseExponent : GoString → Option Int
  | [] => some 0
  | c :: rest =>
    if c = 'e' ∨ c = 'E' then
      match rest with
      | '-' :: ds =>
        if ds ≠ [] ∧ ds.all Char.isDigit then some (-(digitsValue ds : Int)) else none
      | '+' :: ds =>
        if ds ≠ [] ∧ ds.all Char.isDigit then some (digitsValue ds : Int) else none
      | ds => if ds ≠ [] ∧ ds.all Char.isDigit then some (digitsValue ds : Int) else none
    else none

/-- The fraction and exponent parts of a number literal: the digits of the
fraction and the exponent. -/
def parseFraction : GoString → Option (GoString × Int)
  | '.' :: rest =>
    if rest.takeWhile Char.isDigit = [] then none
    else (parseExponent (rest.dropWhile Char.isDigit)).map
      (fun e => (rest.takeWhile Char.isDigit, e))
  | rest => (parseExponent rest).map (fun e => ([], e))

/-- A JSON number literal `-? digits (. digits)? ([eE] [+-]? digits)?` read as
`mantissa * 10 ^ scale`, the sign dropped; `none` for any other string. -/
def parseNumber (literal : GoString) : Option (Nat × Int) :=
  let unsigned := match literal with
    | '-' :: rest => rest
    | _ => literal
  if unsigned.takeWhile Char.isDigit = [] then none
  else (parseFraction (unsigned.dropWhile Char.isDigit)).map
    (fun fe => (digitsValue (unsigned.takeWhile Char.isDigit ++ fe.1),
      fe.2 - (fe.1.length : Int)))

/-- Magnitudes from here on round to infinity as a `float64`: the point half
way between the largest `float64`, `2 ^ 1024 - 2 ^ 971`, and `2 ^ 1024`. -/
def float64Limit : Nat := 2 ^ 1024 - 2 ^ 970

/-- `strconv.ParseFloat(literal, 64)` returns no error: the literal is a
number whose magnitude rounds to a finite `float64`. -/
def fitsFloat64 (literal : GoString) : Bool :=
  match parseNumber literal with
  | none => false
  | some (mantissa, scale) =>
    if 0 ≤ scale then mantissa * 10 ^ scale.toNat < float64Limit
    else mantissa < float64Limit * 10 ^ (-scale).toNat

mutual
/-- The first number literal of a JSON text, in document order, that is
outside the range of `float64`. -/
def JSON.overflow : JSON → Option GoString
  | JSON.number literal => if fitsFloat64 literal then none else some literal
  | JSON.array items => itemsOverflow items
  | JSON.object members => membersOverflow members
  | _ => none
/-- The first number literal outside the range of `float64` among the items
of an array. -/
def itemsOverflow : List JSON → Option GoString
  | [] => none
  | j :: js =>
    match JSON.overflow j with
    | some literal => some literal
    | none => itemsOverflow js
/-- The first number literal outside the range of `float64` among the members
of an object. -/
def membersOverflow : List (GoString × JSON) → Option GoString
  | [] => none
  | (_, j) :: ms =>
    match JSON.overflow j with
    | some literal => some literal
    | none => membersOverflow ms
end

/-- The content variants and their decoders.  The Go types `TextContent`,
`ImageContent` and `EmbeddedResource` are declared outside
`promptMessage.go`; they and the effect of `json.Unmarshal` into a zero value
of each are taken as parameters. -/
structure Variants where
  TextContent : Type
  ImageContent : Type
  EmbeddedResource : Type
  text : RawMessage → Except GoError TextContent
  image : RawMessage → Except GoError ImageContent
  resource : RawMessage → Except GoError EmbeddedResource

/-- Values of the Go interface `Content` that the decoder stores. -/
inductive Content (V : Variants) where
  | text (c : V.TextContent)
  | image (c : V.ImageContent)
  | resource (c : V.EmbeddedResource)

/-- Go struct `PromptMessage`.  Modelled from the spec: `Role` is declared
outside `promptMessage.go`; it is an enumeration of strings (user, assistant,
system).  `Content` is `none` for the nil interface. -/
structure PromptMessage (V : Variants) where
  Role : GoString
  Content : Option (Content V)

/-- Modelled from the spec: the constant `ContentTypeText`, declared outside
`promptMessage.go`; the wire format gives its value. -/
def ContentTypeText : GoString := str "text"

/-- Modelled from the spec: the constant `ContentTypeImage`. -/
def ContentTypeImage : GoString := str "image"

/-- Modelled from the spec: the constant `ContentTypeResource`. -/
def ContentTypeResource : GoString := str "resource"

/-- The case folding of `encoding/json` on one character, for the comparison
with an ASCII name: a letter and its capital are the same, and so are the long
s (U+017F) and `s`, and the Kelvin sign (U+212A) and `k`. -/
def foldRune (c : Char) : Char :=
  if c = Char.ofNat 0x17F then 's'
  else if c = Char.ofNat 0x212A then 'k'
  else c.toLower

/-- How `encoding/json` matches an object member name with a struct field
name: exactly, or else regardless of letter case. -/
def fieldMatches (key name : GoString) : Bool :=
  key = name || key.map foldRune = name.map foldRune

/-- The variable `aux` of `UnmarshalJSON` while line 77 decodes into it:
`Role` is `pm.Role`, reached through the embedded pointer, `Content` is the
shadowing raw field, and `saved` is the first type error the decoder met. -/
structure Aux where
  Role : GoString
  Content : RawMessage
  saved : Option GoError

/-- The decoder stores one object member into `aux`. -/
def Aux.store (aux : Aux) (key : GoString) (value : JSON) : Aux :=
  if fieldMatches key (str "content") then { aux with Content := some value }
  else if fieldMatches key (str "role") then
    match value with
    | JSON.string s => { aux with Role := s }
    | JSON.null => aux
    | _ =>
      match aux.saved with
      | some _ => aux
      | none => { aux with saved := some (GoError.typeMismatch (str "role")) }
  else aux

/-- Line 77, `json.Unmarshal(data, &aux)`, on a JSON text: the members of an
object are stored in document order, `null` changes nothing, any other value
is a type error. -/
def decodeAux (role : GoString) : JSON → Aux
  | JSON.object members =>
    members.foldl (fun aux kv => aux.store kv.1 kv.2) ⟨role, none, none⟩
  | JSON.null => ⟨role, none, none⟩
  | _ => ⟨role, none, some (GoError.typeMismatch [])⟩

/-- The `map[string]interface{}` an object decodes into: a later member
replaces an earlier one of the same name. -/
def objectMap (members : List (GoString × JSON)) : GoString → Option JSON :=
  members.foldl (fun m kv => fun k => if k = kv.1 then some kv.2 else m k) (fun _ => none)

/-- Line 83, `json.Unmarshal(aux.Content, &contentMap)`: the map, indexed as
in `contentMap[key]`, or the error.  The values of the members become
`interface{}` values, numbers `float64`, so a number literal outside the range
of `float64` anywhere in the object is an error, the first one in document
order. -/
def decodeContentMap : RawMessage → Except GoError (GoString → Option JSON)
  | none => Except.error GoError.unexpectedEnd
  | some JSON.null => Except.ok (fun _ => none)
  | some (JSON.object members) =>
    match membersOverflow members with
    | some literal => Except.error (GoError.numberRange literal)
    | none => Except.ok (objectMap members)
  | some _ => Except.error (GoError.typeMismatch [])

/-- The `switch` of lines 92-113 on the content type, with `pm` as line 77
left it. -/
def UnmarshalJSON.dispatch (V : Variants) (pm : PromptMessage V) (raw : RawMessage)
    (contentType : GoString) : PromptMessage V × Option GoError :=
  if contentType = ContentTypeText then
    match V.text raw with
    | Except.error err => (pm, some err)
    | Except.ok textContent => ({ pm with Content := some (Content.text textContent) }, none)
  else if contentType = ContentTypeImage then
    match V.image raw with
    | Except.error err => (pm, some err)
    | Except.ok imageContent => ({ pm with Content := some (Content.image imageContent) }, none)
  else if contentType = ContentTypeResource then
    match V.resource raw with
    | Except.error err => (pm, some err)
    | Except.ok resourceContent =>
      ({ pm with Content := some (Content.resource resourceContent) }, none)
  else (pm, some (GoError.errorf (str "unknown content type: " ++ contentType)))

/-- Lines 77-115 of `UnmarshalJSON` on a JSON text the scanner accepted. -/
def UnmarshalJSON.decode (V : Variants) (pm : PromptMessage V) (doc : JSON) :
    PromptMessage V × Option GoError :=
  let aux := decodeAux pm.Role doc
  let pm1 : PromptMessage V := { pm with Role := aux.Role }
  match aux.saved with
  | some err => (pm1, some err)
  | none =>
    match decodeContentMap aux.Content with
    | Except.error err => (pm1, some err)
    | Except.ok contentMap =>
      match contentMap (str "type") with
      | some (JSON.string contentType) =>
        UnmarshalJSON.dispatch V pm1 aux.Content contentType
      | _ => (pm1, some (GoError.errorf (str "content type not found or invalid")))

/-- `func (pm *PromptMessage) UnmarshalJSON(data []byte) error`: the receiver
after the call and the error returned.  `data` is `none` when the bytes are
not a JSON text.  Line 77 first runs the scanner over the whole text and
returns its error, with nothing written, when the text is nested too deep. -/
def PromptMessage.UnmarshalJSON (V : Variants) (pm : PromptMessage V) (data : Option JSON) :
    PromptMessage V × Option GoError :=
  match data with
  | none => (pm, some GoError.malformed)
  | some doc =>
    if doc.depth ≤ maxNestingDepth then UnmarshalJSON.decode V pm doc
    else (pm, some GoError.malformed)

/-! ## What an envelope carries -/

/-- The content payload of an envelope: the value of its last member named
`content`, `none` when there is no such member or the envelope is no object. -/
def envelopeContent : JSON → RawMessage
  | JSON.object members =>
    (members.reverse.find? (fun kv => fieldMatches kv.1 (str "content"))).map Prod.snd
  | _ => none

/-- The string a member named `role` carries, if it is one. -/
def roleOf (kv : GoString × JSON) : Option GoString :=
  if fieldMatches kv.1 (str "role") then
    match kv.2 with
    | JSON.string s => some s
    | _ => none
  else none

/-- The role of an envelope: the string of its last member named `role` that
holds a string. -/
def envelopeRole : JSON → Option GoString
  | JSON.object members => members.reverse.findSome? roleOf
  | _ => none

/-- A member of an envelope fits the struct it is decoded into: a member
named `role` holds a string or `null`. -/
def memberFits (kv : GoString × JSON) : Bool :=
  if fieldMatches kv.1 (str "role") then
    match kv.2 with
    | JSON.string _ => true
    | JSON.null => true
    | _ => false
  else true

/-- A well-formed envelope: an object whose members fit. -/
def envelopeWellFormed : JSON → Bool
  | JSON.object members => members.all memberFits
  | _ => false

/-- Line 77 decodes the envelope and reports no error: the text is nested no
deeper than the scanner allows and the envelope is well-formed. -/
def envelopeDecodes (doc : JSON) : Bool :=
  decide (doc.depth ≤ maxNestingDepth) && envelopeWellFormed doc

/-- A JSON value is an object. -/
def JSON.isObject : JSON → Bool
  | JSON.object _ => true
  | _ => false

/-- The decoder the `switch` of lines 92-113 selects for a tag fails on the
raw content payload. -/
def variantFails (V : Variants) (tag : GoString) (raw : RawMessage) : Prop :=
  (tag = ContentTypeText ∧ ∃ err, V.text raw = Except.error err) ∨
  (tag = ContentTypeImage ∧ ∃ err, V.image raw = Except.error err) ∨
  (tag = ContentTypeResource ∧ ∃ err, V.resource raw = Except.error err)

/-! ## Encoding -/

/-- The JSON forms `json.Marshal` gives the values of the content variants;
like the variant types, they are parameters. -/
structure Encoders (V : Variants) where
  text : V.TextContent → JSON
  image : V.ImageContent → JSON
  resource : V.EmbeddedResource → JSON

/-- The JSON form of the value an interface `Content` holds. -/
def Content.encode {V : Variants} (E : Encoders V) : Content V → JSON
  | Content.text c => E.text c
  | Content.image c => E.image c
  | Content.resource c => E.resource c

/-- The wire form `json.Marshal` gives a `PromptMessage`: the fields of the
struct of lines 9-12 under their tags `role` and `content`, a nil `Content`
as `null`. -/
def PromptMessage.encode {V : Variants} (E : Encoders V) (m : PromptMessage V) : JSON :=
  JSON.object [(str "role", JSON.string m.Role),
    (str "content",
      match m.Content with
      | none => JSON.null
      | some c => c.encode E)]

/-! ## The wire format of the content variants -/

/-- Modelled from the spec: Go struct `TextContent`, declared outside
`promptMessage.go`: the type tag `text`, the same for every value and so not
stored, and a plain text payload; wire form `{type:"text", text:<string>}`. -/
structure TextContent where
  Text : GoString

/-- Modelled from the spec: Go struct `ImageContent`, declared outside
`promptMessage.go`: the type tag `image`, the encoded image and its mime type;
wire form `{type:"image", data:<encoded bytes>, mimeType:<string>}`. -/
structure ImageContent where
  Data : GoString
  MimeType : GoString

/-- Modelled from the spec: Go struct `EmbeddedResource`, declared outside
`promptMessage.go`: the type tag `resource` and the object that describes the
resource; wire form `{type:"resource", resource:<object>}`. -/
structure EmbeddedResource where
  Resource : List (GoString × JSON)

/-- The first error met is the one `json.Unmarshal` returns. -/
def saveError (saved : Option GoError) (err : GoError) : Option GoError :=
  match saved with
  | some e => some e
  | none => some err

/-- `json.Unmarshal` of a raw value into a struct that starts as `zero`: the
members of an object are stored in document order, `null` changes nothing,
empty data and other values are errors. -/
def decodeStruct {α : Type} (zero : α)
    (store : α × Option GoError → GoString → JSON → α × Option GoError) :
    RawMessage → Except GoError α
  | none => Except.error GoError.unexpectedEnd
  | some JSON.null => Except.ok zero
  | some (JSON.object members) =>
    match members.foldl (fun st kv => store st kv.1 kv.2) (zero, none) with
    | (_, some err) => Except.error err
    | (v, none) => Except.ok v
  | some _ => Except.error (GoError.typeMismatch [])

/-- Modelled from the spec: one member stored into a `TextContent`. -/
def TextContent.store (st : TextContent × Option GoError) (key : GoString) (value : JSON) :
    TextContent × Option GoError :=
  if fieldMatches key (str "text") then
    match value with
    | JSON.string s => ({ st.1 with Text := s }, st.2)
    | JSON.null => st
    | _ => (st.1, saveError st.2 (GoError.typeMismatch (str "text")))
  else st

/-- Modelled from the spec: one member stored into an `ImageContent`. -/
def ImageContent.store (st : ImageContent × Option GoError) (key : GoString) (value : JSON) :
    ImageContent × Option GoError :=
  if fieldMatches key (str "data") then
    match value with
    | JSON.string s => ({ st.1 with Data := s }, st.2)
    | JSON.null => st
    | _ => (st.1, saveError st.2 (GoError.typeMismatch (str "data")))
  else if fieldMatches key (str "mimeType") then
    match value with
    | JSON.string s => ({ st.1 with MimeType := s }, st.2)
    | JSON.null => st
    | _ => (st.1, saveError st.2 (GoError.typeMismatch (str "mimeType")))
  else st

/-- Modelled from the spec: one member stored into an `EmbeddedResource`. -/
def EmbeddedResource.store (st : EmbeddedResource × Option GoError) (key : GoString)
    (value : JSON) : EmbeddedResource × Option GoError :=
  if fieldMatches key (str "resource") then
    match value with
    | JSON.object members => ({ st.1 with Resource := members }, st.2)
    | JSON.null => st
    | _ => (st.1, saveError st.2 (GoError.typeMismatch (str "resource")))
  else st

/-- Modelled from the spec: the three content variants of the wire format and
their decoders. -/
def wire : Variants where
  TextContent := TextContent
  ImageContent := ImageContent
  EmbeddedResource := EmbeddedResource
  text := decodeStruct ⟨[]⟩ TextContent.store
  image := decodeStruct ⟨[], []⟩ ImageContent.store
  resource := decodeStruct ⟨[]⟩ EmbeddedResource.store

/-- Modelled from the spec: the wire forms of the three content variants. -/
def wireEncoders : Encoders wire where
  text := fun c =>
    JSON.object [(str "type", JSON.string ContentTypeText), (str "text", JSON.string c.Text)]
  image := fun c =>
    JSON.object [(str "type", JSON.string ContentTypeImage), (str "data", JSON.string c.Data),
      (str "mimeType", JSON.string c.MimeType)]
  resource := fun c =>
    JSON.object [(str "type", JSON.string ContentTypeResource),
      (str "resource", JSON.object c.Resource)]

/-- A JSON value is a string. -/
def JSON.isString : JSON → Bool
  | JSON.string _ => true
  | _ => false

/-- A JSON value is `null`. -/
def JSON.isNull : JSON → Bool
  | JSON.null => true
  | _ => false

/-- Modelled from the spec: a content object has the shape the wire format
gives the variant of its tag: `text` a string for `text`, `data` and
`mimeType` strings for `image`, `resource` an object for `resource`. -/
def wireShape (tag : GoString) (members : List (GoString × JSON)) : Bool :=
  if tag = ContentTypeText then
    ((objectMap members (str "text")).map JSON.isString).getD false
  else if tag = ContentTypeImage then
    ((objectMap members (str "data")).map JSON.isString).getD false &&
      ((objectMap members (str "mimeType")).map JSON.isString).getD false
  else if tag = ContentTypeResource then
    ((objectMap members (str "resource")).map JSON.isObject).getD false
  else false

/-- Modelled from the spec: a member of a text content the decoder rejects:
it is named `text` and holds neither a string nor `null`. -/
def TextContent.mistyped (kv : GoString × JSON) : Bool :=
  fieldMatches kv.1 (str "text") && !(kv.2.isString || kv.2.isNull)

/-- Modelled from the spec: a member of an image content the decoder rejects:
it is named `data` or `mimeType` and holds neither a string nor `null`. -/
def ImageContent.mistyped (kv : GoString × JSON) : Bool :=
  (fieldMatches kv.1 (str "data") || fieldMatches kv.1 (str "mimeType")) &&
    !(kv.2.isString || kv.2.isNull)

/-- Modelled from the spec: a member of a resource content the decoder
rejects: it is named `resource` and holds neither an object nor `null`. -/
def EmbeddedResource.mistyped (kv : GoString × JSON) : Bool :=
  fieldMatches kv.1 (str "resource") && !(kv.2.isObject || kv.2.isNull)

/-- Modelled from the spec: a content object holds, under a name of the shape
its tag selects, a value of another JSON type than the shape gives it. -/
def wireMistyped (tag : GoString) (members : List (GoString × JSON)) : Bool :=
  if tag = ContentTypeText then members.any TextContent.mistyped
  else if tag = ContentTypeImage then members.any ImageContent.mistyped
  else if tag = ContentTypeResource then members.any EmbeddedResource.mistyped
  else false

/-! ## `Execute` and `ValidateArguments` with their inputs as state -/

/-- What a call of `Execute` or `ValidateArguments` can reach: the prompt
behind the receiver pointer and the map behind `args`. -/
structure CallState where
  p : Prompt
  args : ArgMap

/-- The variables of `Execute`: the reachable inputs and the local `result`. -/
structure ExecuteState where
  inputs : CallState
  result : GoString

/-- The loop of lines 41-47 with the inputs threaded through: an iteration
reads `arg` and `args` and assigns nothing. -/
def Execute.checkRun (st : CallState) : List PromptArgument → CallState × Option GoError
  | [] => (st, none)
  | arg :: rest =>
    if arg.Required then
      if ArgMap.has st.args arg.Name then Execute.checkRun st rest
      else (st, some (missingArgument arg.Name))
    else Execute.checkRun st rest

/-- The loop of lines 50-52 with the state threaded through: an iteration
assigns the local `result` and nothing else. -/
def Execute.substituteRun (st : ExecuteState) : ArgMap → ExecuteState
  | [] => st
  | (name, value) :: rest =>
    Execute.substituteRun
      { st with result := ReplaceAll st.result (placeholder name) value } rest

/-- `Prompt.Execute` as a state transformer: the inputs after the call next
to the values returned. -/
def Execute.run (st : CallState) : CallState × (GoString × Option GoError) :=
  match Execute.checkRun st st.p.Arguments with
  | (st1, some err) => (st1, ([], some err))
  | (st1, none) =>
    let st2 := Execute.substituteRun ⟨st1, st1.p.Template⟩ st1.args
    (st2.inputs, (st2.result, none))

/-- `Prompt.ValidateArguments` as a state transformer: the loop of lines 58-64
reads `arg` and `args` and assigns nothing. -/
def ValidateArguments.run (st : CallState) : List PromptArgument → CallState × Option GoError
  | [] => (st, none)
  | arg :: rest =>
    if arg.Required then
      if ArgMap.has st.args arg.Name then ValidateArguments.run st rest
      else (st, some (missingArgument arg.Name))
    else ValidateArguments.run st rest

/-! ## Envelopes of the examples -/

/-- The envelope `{"role": <role>, "content": <content>}`. -/
def envelope (role : GoString) (content : JSON) : JSON :=
  JSON.object [(str "role", JSON.string role), (str "content", content)]

/-- The content payload `{"type":"text","text":"hi"}`. -/
def hiContent : JSON :=
  JSON.object [(str "type", JSON.string (str "text")), (str "text", JSON.string (str "hi"))]

/-- The content payload `{"type":"video","n":1e999}`: the number is outside
the range of `float64`. -/
def hugeContent : JSON :=
  JSON.object [(str "type", JSON.string (str "video")), (str "n", JSON.number (str "1e999"))]

/-- The array `[[...[]...]]` of `n + 1` brackets. -/
def nested : Nat → JSON
  | 0 => JSON.array []
  | n + 1 => JSON.array [nested n]

/-- The content payload `{"type":"video","data":"..."}`. -/
def videoContent : JSON :=
  JSON.object [(str "type", JSON.string (str "video")), (str "data", JSON.string (str "..."))]

/-! ## Required-argument validation -/

theorem has_eq_true_iff (args : ArgMap) (name : GoString) :
    ArgMap.has args name = true ↔ name ∈ ArgMap.keys args := by
  unfold ArgMap.has ArgMap.keys
  rw [List.lookup_isSome_iff]
  simp

theorem has_eq_false_iff (args : ArgMap) (name : GoString) :
    ArgMap.has args name = false ↔ name ∉ ArgMap.keys args := by
  rw [← has_eq_true_iff]; simp

/-- The first loop of `Execute` stops with an error exactly when some required
argument is not a key, and the error then names such an argument. -/
theorem check_eq_none_iff (args : ArgMap) (l : List PromptArgument) :
    Execute.check args l = none ↔
      ∀ a ∈ l, a.Required = true → a.Name ∈ ArgMap.keys args := by
  induction l with
  | nil => simp [Execute.check]
  | cons a rest ih =>
    unfold Execute.check
    by_cases hr : a.Required = true
    · by_cases hk : ArgMap.has args a.Name = true
      · have hk2 := (has_eq_true_iff args a.Name).1 hk
        simp [hr, hk, ih, hk2]
      · have hk2 : a.Name ∉ ArgMap.keys args := fun h => hk ((has_eq_true_iff args a.Name).2 h)
        simp [hr, hk, hk2]
    · simp [hr, ih]

theorem check_eq_some (args : ArgMap) (l : List PromptArgument) (e : GoError)
    (h : Execute.check args l = some e) :
    ∃ b ∈ l, b.Required = true ∧ b.Name ∉ ArgMap.keys args ∧ e = missingArgument b.Name := by
  induction l with
  | nil => simp [Execute.check] at h
  | cons a rest ih =>
    unfold Execute.check at h
    by_cases hr : a.Required = true
    · by_cases hk : ArgMap.has args a.Name = true
      · simp only [hr, hk, if_true] at h
        obtain ⟨b, hb, hb2⟩ := ih h
        exact ⟨b, List.mem_cons_of_mem _ hb, hb2⟩
      · simp only [hr, hk, if_true] at h
        have hk2 : a.Name ∉ ArgMap.keys args := fun h => hk ((has_eq_true_iff args a.Name).2 h)
        refine ⟨a, List.mem_cons_self _ _, hr, hk2, ?_⟩
        simpa using h.symm
    · simp only [hr] at h
      obtain ⟨b, hb, hb2⟩ := ih h
      exact ⟨b, List.mem_cons_of_mem _ hb, hb2⟩

theorem execute_of_check_none (p : Prompt) (args : ArgMap)
    (h : Execute.check args p.Arguments = none) :
    p.Execute args = (Execute.substitute p.Template args, none) := by
  unfold Prompt.Execute; rw [h]

theorem execute_of_check_some (p : Prompt) (args : ArgMap) (e : GoError)
    (h : Execute.check args p.Arguments = some e) :
    p.Execute args = ([], some e) := by
  unfold Prompt.Execute; rw [h]

theorem validate_loop_eq_check (args : ArgMap) (l : List PromptArgument) :
    ValidateArguments.loop args l = Execute.check args l := by
  induction l with
  | nil => rfl
  | cons a rest ih => simp only [ValidateArguments.loop, Execute.check, ih]

/-! ## Claims on validation -/

/-- C1 (as stated, refuted): a prompt declaring the required arguments `B` then
`A`, run on the empty map, lacks `A` and yet does not report the error naming
`A`: the loop returns at `B`. -/
theorem C1_counterexample :
    ¬ ∀ (p : Prompt) (A : PromptArgument) (args : ArgMap),
        A ∈ p.Arguments → A.Required = true → A.Name ∉ ArgMap.keys args →
        p.Execute args =
          ([], some (GoError.errorf (str "missing required argument: " ++ A.Name))) := by
  intro h
  have h1 := h ⟨[], [], [⟨str "B", [], true⟩, ⟨str "A", [], true⟩], str "x"⟩
    ⟨str "A", [], true⟩ [] (by decide) rfl (by decide)
  revert h1
  decide

/-- C1 (amended): when a prompt declares a required argument `A` and `A` is not
a key of `args`, `Execute` fails with an empty string and the error whose
message is `missing required argument: B` for a required argument `B` of the
prompt that is not a key of `args`; the message is
`missing required argument: A` whenever every required argument absent from
`args` is called `A`. -/
theorem C1_execute_missing_required (p : Prompt) (A : PromptArgument) (args : ArgMap)
    (hA : A ∈ p.Arguments) (hreq : A.Required = true)
    (hmiss : A.Name ∉ ArgMap.keys args) :
    (∃ B ∈ p.Arguments, B.Required = true ∧ B.Name ∉ ArgMap.keys args ∧
        p.Execute args =
          ([], some (GoError.errorf (str "missing required argument: " ++ B.Name)))) ∧
      ((∀ C ∈ p.Arguments, C.Required = true → C.Name ∉ ArgMap.keys args →
          C.Name = A.Name) →
        p.Execute args =
          ([], some (GoError.errorf (str "missing required argument: " ++ A.Name)))) := by
  have hmsg : ∀ name, missingArgument name =
      GoError.errorf (str "missing required argument: " ++ name) := fun _ => rfl
  simp only [← hmsg]
  have hne : Execute.check args p.Arguments ≠ none := by
    intro hn
    exact hmiss ((check_eq_none_iff args p.Arguments).1 hn A hA hreq)
  obtain ⟨e, he⟩ := Option.ne_none_iff_exists'.1 hne
  obtain ⟨B, hB, hBr, hBk, hBe⟩ := check_eq_some args p.Arguments e he
  have hex : p.Execute args = ([], some (missingArgument B.Name)) := by
    rw [execute_of_check_some p args e he, hBe]
  refine ⟨⟨B, hB, hBr, hBk, hex⟩, fun honly => ?_⟩
  rw [hex, honly B hB hBr hBk]

/-- Witness of C1 (amended): the greeting prompt with required `name`, run
without arguments, reports `missing required argument: name`. -/
theorem C1_execute_missing_required_witness :
    Prompt.Execute ⟨str "greet", [], [⟨str "name", [], true⟩], str "Hello"⟩ [] =
      ([], some (GoError.errorf (str "missing required argument: name"))) :=
  (C1_execute_missing_required ⟨str "greet", [], [⟨str "name", [], true⟩], str "Hello"⟩
    ⟨str "name", [], true⟩ [] (by decide) rfl (by decide)).2 (by decide)

/-- C2: `Execute` returns an error exactly when some declared argument with
`Required = true` has a name that is not a key of `args`; values, optional
arguments and undeclared keys play no part. -/
theorem C2_execute_error_iff (p : Prompt) (args : ArgMap) :
    (p.Execute args).2 ≠ none ↔
      ∃ a ∈ p.Arguments, a.Required = true ∧ a.Name ∉ ArgMap.keys args := by
  constructor
  · intro h
    cases hc : Execute.check args p.Arguments with
    | none => rw [execute_of_check_none p args hc] at h; exact absurd rfl h
    | some e =>
      obtain ⟨b, hb, hbr, hbk, _⟩ := check_eq_some args p.Arguments e hc
      exact ⟨b, hb, hbr, hbk⟩
  · rintro ⟨a, ha, har, hak⟩ h
    cases hc : Execute.check args p.Arguments with
    | none => exact hak ((check_eq_none_iff args p.Arguments).1 hc a ha har)
    | some e => rw [execute_of_check_some p args e hc] at h; cases h

/-- C8: `ValidateArguments` returns exactly the error component of `Execute`:
it fails on the same inputs and with the same error. -/
theorem C8_validate_eq_execute_error (p : Prompt) (args : ArgMap) :
    p.ValidateArguments args = (p.Execute args).2 := by
  unfold Prompt.ValidateArguments
  rw [validate_loop_eq_check]
  cases hc : Execute.check args p.Arguments with
  | none => rw [execute_of_check_none p args hc]
  | some e => rw [execute_of_check_some p args e hc]

/-! ## Facts about `strings.ReplaceAll` on placeholders -/

/-- The model of `strings.ReplaceAll` on the cases its documentation singles
out: matches do not overlap and are taken from the left, and an empty `old`
matches before every character and at the end. -/
theorem replaceAll_examples :
    ReplaceAll (str "aaa") (str "aa") (str "b") = str "ba" ∧
      ReplaceAll (str "oink oink oink") (str "oink") (str "moo") = str "moo moo moo" ∧
      ReplaceAll (str "abc") [] (str "-") = str "-a-b-c-" ∧
      ReplaceAll (str "abc") (str "x") (str "y") = str "abc" := by
  decide

theorem placeholder_ne_nil (k : GoString) : placeholder k ≠ [] := by
  simp [placeholder]

theorem lbrace_ne_rbrace : lbrace ≠ rbrace := by decide

theorem replaceAll_placeholder (s k v : GoString) :
    ReplaceAll s (placeholder k) v = ReplaceAll.scan (placeholder k) v 0 s := by
  unfold ReplaceAll
  rw [if_neg (placeholder_ne_nil k)]

/-- A prefix that avoids the character `c` ends before the first `c`. -/
theorem prefix_of_prefix_append_cons {x a b : GoString} {c : Char} (hc : c ∉ x)
    (h : x <+: a ++ c :: b) : x <+: a := by
  induction a generalizing x with
  | nil =>
    cases x with
    | nil => exact List.nil_prefix
    | cons d x' =>
      rw [List.nil_append, List.cons_prefix_cons] at h
      exact absurd (h.1 ▸ List.mem_cons_self d x') hc
  | cons e a ih =>
    cases x with
    | nil => exact List.nil_prefix
    | cons d x' =>
      rw [List.cons_append, List.cons_prefix_cons] at h
      rw [List.cons_prefix_cons]
      exact ⟨h.1, ih (fun hm => hc (List.mem_cons_of_mem _ hm)) h.2⟩

/-- Two strings without `c` that are followed by `c` and agree up to there are equal. -/
theorem eq_of_append_cons_prefix {k n r : GoString} {c : Char} (hk : c ∉ k) (hn : c ∉ n)
    (h : k ++ [c] <+: n ++ c :: r) : k = n := by
  induction k generalizing n with
  | nil =>
    cases n with
    | nil => rfl
    | cons d n' =>
      rw [List.nil_append, List.cons_append, List.cons_prefix_cons] at h
      exact absurd (h.1 ▸ List.mem_cons_self d n') hn
  | cons e k ih =>
    cases n with
    | nil =>
      rw [List.cons_append, List.nil_append, List.cons_prefix_cons] at h
      exact absurd (h.1 ▸ List.mem_cons_self e k) hk
    | cons d n' =>
      rw [List.cons_append, List.cons_append, List.cons_prefix_cons] at h
      rw [h.1, ih (fun hm => hk (List.mem_cons_of_mem _ hm))
        (fun hm => hn (List.mem_cons_of_mem _ hm)) h.2]

/-- The placeholder of a brace-free key starts the placeholder of a brace-free
name only when the two names are equal. -/
theorem placeholder_prefix_placeholder {k n r : GoString} (hk : BraceFree k)
    (hn : BraceFree n) (h : placeholder k <+: placeholder n ++ r) : k = n := by
  unfold placeholder at h
  rw [List.cons_append, List.cons_prefix_cons, List.append_assoc] at h
  exact eq_of_append_cons_prefix hk.2 hn.2 h.2

theorem scan_skip (old new : GoString) (xs rest : GoString) :
    ReplaceAll.scan old new xs.length (xs ++ rest) = ReplaceAll.scan old new 0 rest := by
  induction xs with
  | nil => rfl
  | cons x xs ih => simpa [ReplaceAll.scan] using ih

theorem scan_nil (old new : GoString) (skip : Nat) :
    ReplaceAll.scan old new skip [] = [] := by
  cases skip <;> rfl

/-- A matched placeholder is replaced and the scan goes on behind it. -/
theorem scan_placeholder_self (k v rest : GoString) :
    ReplaceAll.scan (placeholder k) v 0 (placeholder k ++ rest) =
      v ++ ReplaceAll.scan (placeholder k) v 0 rest := by
  have h1 : placeholder k <+: placeholder k ++ rest := List.prefix_append _ _
  have h2 : placeholder k ++ rest = lbrace :: ((k ++ [rbrace]) ++ rest) := by
    simp [placeholder]
  have h3 : (placeholder k).length - 1 = (k ++ [rbrace]).length := by
    simp [placeholder]
  rw [h2] at h1 ⊢
  rw [ReplaceAll.scan, if_pos h1, h3, scan_skip]

/-- Characters other than `{` are copied. -/
theorem scan_copy (k v t rest : GoString) (ht : lbrace ∉ t) :
    ReplaceAll.scan (placeholder k) v 0 (t ++ rest) =
      t ++ ReplaceAll.scan (placeholder k) v 0 rest := by
  induction t with
  | nil => rfl
  | cons c t ih =>
    have hc : c ≠ lbrace := fun h => ht (h ▸ List.mem_cons_self c t)
    have hp : ¬ placeholder k <+: c :: (t ++ rest) := by
      unfold placeholder
      rw [List.cons_prefix_cons]
      exact fun h => hc h.1.symm
    rw [List.cons_append, ReplaceAll.scan, if_neg hp,
      ih (fun hm => ht (List.mem_cons_of_mem _ hm))]
    rfl

/-- The placeholder of another brace-free name is copied. -/
theorem scan_placeholder_other (k v n rest : GoString) (hk : BraceFree k)
    (hn : BraceFree n) (hne : k ≠ n) :
    ReplaceAll.scan (placeholder k) v 0 (placeholder n ++ rest) =
      placeholder n ++ ReplaceAll.scan (placeholder k) v 0 rest := by
  have hp : ¬ placeholder k <+: placeholder n ++ rest :=
    fun h => hne (placeholder_prefix_placeholder hk hn h)
  have h2 : placeholder n ++ rest = lbrace :: ((n ++ [rbrace]) ++ rest) := by
    simp [placeholder]
  have h4 : lbrace ∉ n ++ [rbrace] := by
    simp only [List.mem_append, List.mem_singleton, not_or]
    exact ⟨hn.1, lbrace_ne_rbrace⟩
  rw [h2] at hp ⊢
  rw [ReplaceAll.scan, if_neg hp, scan_copy k v _ rest h4]
  simp [placeholder]

/-! ## Substitution on flat templates -/

theorem wellFormed_cons {s : Segment} {segs : List Segment} :
    WellFormed (s :: segs) ↔ BraceFree s.chars ∧ WellFormed segs := by
  simp [WellFormed]

/-- On a flat template one `ReplaceAll` fills exactly the placeholders of its key. -/
theorem replaceAll_flatten (k v : GoString) (hk : BraceFree k) (segs : List Segment)
    (hw : WellFormed segs) :
    ReplaceAll (flatten segs) (placeholder k) v =
      flatten (segs.map (Segment.fillOne k v)) := by
  rw [replaceAll_placeholder]
  induction segs with
  | nil => rfl
  | cons s rest ih =>
    obtain ⟨hs, hrest⟩ := wellFormed_cons.1 hw
    cases s with
    | text t =>
      simp only [flatten, Segment.flatten, List.map_cons, Segment.fillOne]
      rw [scan_copy k v t _ hs.1, ih hrest]
    | hole n =>
      simp only [flatten, Segment.flatten, List.map_cons, Segment.fillOne]
      by_cases hnk : n = k
      · subst hnk
        rw [scan_placeholder_self, ih hrest, if_pos rfl]
      · rw [scan_placeholder_other k v n _ hk hs (fun h => hnk h.symm), ih hrest, if_neg hnk]

theorem wellFormed_map_fillOne (k v : GoString) (hv : BraceFree v) (segs : List Segment)
    (hw : WellFormed segs) : WellFormed (segs.map (Segment.fillOne k v)) := by
  intro s hs
  obtain ⟨s0, hs0, rfl⟩ := List.mem_map.1 hs
  cases s0 with
  | text t => exact hw _ hs0
  | hole n =>
    simp only [Segment.fillOne]
    split
    · exact hv
    · exact hw _ hs0

theorem fill_fillOne (k v : GoString) (rest : ArgMap) (s : Segment) :
    Segment.fill rest (Segment.fillOne k v s) = Segment.fill ((k, v) :: rest) s := by
  cases s with
  | text t => rfl
  | hole n =>
    simp only [Segment.fillOne, Segment.fill, List.lookup]
    by_cases hnk : n = k
    · subst hnk; simp [Segment.fill]
    · have : (n == k) = false := by simpa using hnk
      simp [hnk, this, Segment.fill]

/-- On a flat template with brace-free keys and values the substitution loop
computes the rendering of the specification. -/
theorem substitute_flatten (args : ArgMap) (hb : ArgMap.BraceFree args)
    (segs : List Segment) (hw : WellFormed segs) :
    Execute.substitute (flatten segs) args = render args segs := by
  induction args generalizing segs with
  | nil =>
    unfold render
    have : segs.map (Segment.fill []) = segs := by
      induction segs with
      | nil => rfl
      | cons s rest ih =>
        rw [List.map_cons, ih (wellFormed_cons.1 hw).2]
        cases s <;> rfl
    rw [this]; rfl
  | cons kv rest ih =>
    obtain ⟨k, v⟩ := kv
    have hkv := hb (k, v) (List.mem_cons_self _ _)
    have hrest : ArgMap.BraceFree rest := fun x hx => hb x (List.mem_cons_of_mem _ hx)
    rw [Execute.substitute, replaceAll_flatten k v hkv.1 segs hw,
      ih hrest _ (wellFormed_map_fillOne k v hkv.2 segs hw)]
    unfold render
    rw [List.map_map]
    congr 1
    apply List.map_congr_left
    intro s _
    exact fill_fillOne k v rest s

/-- In a map a key has one value, whatever the order of the entries. -/
theorem lookup_perm {args args2 : ArgMap} (hp : args.Perm args2) (hwf : ArgMap.WF args)
    (n : GoString) : List.lookup n args = List.lookup n args2 := by
  induction hp with
  | nil => rfl
  | cons x _ ih =>
    obtain ⟨k, v⟩ := x
    have hwf2 : ArgMap.WF _ := (List.nodup_cons.1 hwf).2
    simp only [List.lookup]
    cases n == k
    · exact ih hwf2
    · rfl
  | swap x y l =>
    obtain ⟨k, v⟩ := x
    obtain ⟨k2, v2⟩ := y
    have hne : k2 ≠ k := by
      intro h
      have := (List.nodup_cons.1 hwf).1
      simp [ArgMap.keys, h] at this
    simp only [List.lookup]
    by_cases h1 : n = k
    · subst h1
      have : (n == k2) = false := by simpa using fun h => hne h.symm
      simp [this]
    · have : (n == k) = false := by simpa using h1
      simp [this]
  | trans h1 _ ih1 ih2 =>
    have hwf2 : ArgMap.WF _ := (List.Perm.nodup_iff (h1.map Prod.fst)).1 hwf
    exact (ih1 hwf).trans (ih2 hwf2)

theorem render_perm {args args2 : ArgMap} (hp : args.Perm args2) (hwf : ArgMap.WF args)
    (segs : List Segment) : render args segs = render args2 segs := by
  unfold render
  congr 1
  apply List.map_congr_left
  intro s _
  cases s with
  | text t => rfl
  | hole n => simp only [Segment.fill, lookup_perm hp hwf n]

theorem braceFree_perm {args args2 : ArgMap} (hp : args.Perm args2)
    (hb : ArgMap.BraceFree args) : ArgMap.BraceFree args2 :=
  fun kv hkv => hb kv (hp.mem_iff.2 hkv)

theorem keys_perm {args args2 : ArgMap} (hp : args.Perm args2) (n : GoString) :
    n ∈ ArgMap.keys args ↔ n ∈ ArgMap.keys args2 :=
  (hp.map Prod.fst).mem_iff

theorem satisfies_perm {args args2 : ArgMap} (hp : args.Perm args2)
    {l : List PromptArgument} (hs : Satisfies args l) : Satisfies args2 l :=
  fun a ha hr => (keys_perm hp a.Name).1 (hs a ha hr)

theorem execute_of_satisfies (p : Prompt) (args : ArgMap) (hs : Satisfies args p.Arguments) :
    p.Execute args = (Execute.substitute p.Template args, none) :=
  execute_of_check_none p args ((check_eq_none_iff args p.Arguments).2 hs)

theorem check_perm {args args2 : ArgMap} (hp : args.Perm args2) (l : List PromptArgument) :
    Execute.check args l = Execute.check args2 l := by
  have hhas : ∀ n, ArgMap.has args n = ArgMap.has args2 n := by
    intro n
    rw [Bool.eq_iff_iff, has_eq_true_iff, has_eq_true_iff]
    exact keys_perm hp n
  induction l with
  | nil => rfl
  | cons a rest ih => simp only [Execute.check, hhas, ih]

theorem wf_perm {args args2 : ArgMap} (hp : args.Perm args2) (hwf : ArgMap.WF args) :
    ArgMap.WF args2 :=
  (List.Perm.nodup_iff (hp.map Prod.fst)).1 hwf

theorem mem_of_lookup_eq_some {args : ArgMap} {n v : GoString}
    (h : List.lookup n args = some v) : (n, v) ∈ args := by
  induction args with
  | nil => simp [List.lookup] at h
  | cons kv rest ih =>
    obtain ⟨k, w⟩ := kv
    simp only [List.lookup] at h
    by_cases hnk : n = k
    · subst hnk
      simp at h
      subst h
      exact List.mem_cons_self _ _
    · have : (n == k) = false := by simpa using hnk
      simp only [this] at h
      exact List.mem_cons_of_mem _ (ih h)

theorem wellFormed_map_fill (args : ArgMap) (hb : ArgMap.BraceFree args)
    (segs : List Segment) (hw : WellFormed segs) :
    WellFormed (segs.map (Segment.fill args)) := by
  intro s hs
  obtain ⟨s0, hs0, rfl⟩ := List.mem_map.1 hs
  cases s0 with
  | text t => exact hw _ hs0
  | hole n =>
    simp only [Segment.fill]
    cases hl : List.lookup n args with
    | none => exact hw _ hs0
    | some v => exact (hb _ (mem_of_lookup_eq_some hl)).2

/-- Filling leaves no placeholder of a key behind. -/
theorem hole_not_mem_map_fill (args : ArgMap) (segs : List Segment) (k : GoString)
    (hk : k ∈ ArgMap.keys args) : Segment.hole k ∉ segs.map (Segment.fill args) := by
  intro hm
  obtain ⟨s0, _, hs⟩ := List.mem_map.1 hm
  cases s0 with
  | text t => cases hs
  | hole n =>
    simp only [Segment.fill] at hs
    cases hl : List.lookup n args with
    | none =>
      rw [hl] at hs
      have hnk : n = k := by injection hs
      have : ArgMap.has args n = false := by
        unfold ArgMap.has; rw [hl]; rfl
      exact (has_eq_false_iff args n).1 this (hnk ▸ hk)
    | some v => rw [hl] at hs; cases hs

/-- What stands before a character `c` in `t ++ r` covers `t` when `t` has no `c`. -/
theorem append_cons_eq_append {a b t r : GoString} {c : Char} (hc : c ∉ t)
    (h : a ++ c :: b = t ++ r) : ∃ a2, a = t ++ a2 ∧ a2 ++ c :: b = r := by
  induction t generalizing a with
  | nil => exact ⟨a, rfl, h⟩
  | cons d t ih =>
    cases a with
    | nil =>
      rw [List.nil_append, List.cons_append, List.cons.injEq] at h
      exact absurd (h.1 ▸ List.mem_cons_self d t) hc
    | cons e a =>
      rw [List.cons_append, List.cons_append, List.cons.injEq] at h
      obtain ⟨a2, h1, h2⟩ := ih (fun hm => hc (List.mem_cons_of_mem _ hm)) h.2
      exact ⟨a2, by rw [h.1, h1]; rfl, h2⟩

/-- A placeholder of a brace-free key found in a flat template is one of its segments. -/
theorem hole_mem_of_infix_flatten (k : GoString) (hk : BraceFree k) (segs : List Segment)
    (hw : WellFormed segs) (h : placeholder k <:+: flatten segs) :
    Segment.hole k ∈ segs := by
  induction segs with
  | nil =>
    obtain ⟨pre, suf, he⟩ := h
    have : placeholder k = [] := by
      have h0 : pre ++ placeholder k ++ suf = [] := he
      simp only [List.append_eq_nil] at h0
      exact h0.1.2
    exact absurd this (placeholder_ne_nil k)
  | cons s rest ih =>
    obtain ⟨hs, hrest⟩ := wellFormed_cons.1 hw
    obtain ⟨pre, suf, he⟩ := h
    have he2 : pre ++ lbrace :: (k ++ [rbrace] ++ suf) = s.flatten ++ flatten rest := by
      have h0 : flatten (s :: rest) = s.flatten ++ flatten rest := rfl
      rw [← h0, ← he]; simp [placeholder]
    cases s with
    | text t =>
      obtain ⟨a2, _, h2⟩ := append_cons_eq_append hs.1 he2
      refine List.mem_cons_of_mem _ (ih hrest ⟨a2, suf, ?_⟩)
      rw [← h2]; simp [placeholder]
    | hole n =>
      cases pre with
      | nil =>
        have hp : placeholder k <+: placeholder n ++ flatten rest :=
          ⟨suf, by simpa [flatten, Segment.flatten] using he⟩
        rw [placeholder_prefix_placeholder hk hs hp]
        exact List.mem_cons_self _ _
      | cons c pre2 =>
        have h4 : lbrace ∉ n ++ [rbrace] := by
          simp only [List.mem_append, List.mem_singleton, not_or]
          exact ⟨hs.1, lbrace_ne_rbrace⟩
        have he3 : pre2 ++ lbrace :: (k ++ [rbrace] ++ suf) = (n ++ [rbrace]) ++ flatten rest := by
          have := he2
          simp only [Segment.flatten, placeholder, List.cons_append, List.cons.injEq] at this
          rw [this.2]
        obtain ⟨a2, _, h2⟩ := append_cons_eq_append h4 he3
        refine List.mem_cons_of_mem _ (ih hrest ⟨a2, suf, ?_⟩)
        rw [← h2]; simp [placeholder]

/-! ## Claims on substitution -/

/-- C6: on a template made of brace-free text and well-formed placeholders,
with brace-free keys and values and the required arguments present, `Execute`
succeeds and returns the template with each placeholder of a key replaced by
the value of that key and everything else kept, in whatever order the entries
are visited. -/
theorem C6_execute_flat_template (p : Prompt) (segs : List Segment) (args order : ArgMap)
    (hT : p.Template = flatten segs) (hw : WellFormed segs) (hwf : ArgMap.WF args)
    (hb : ArgMap.BraceFree args) (hs : Satisfies args p.Arguments)
    (horder : order.Perm args) :
    p.Execute order = (render args segs, none) := by
  rw [execute_of_satisfies p order (satisfies_perm horder.symm hs), hT,
    substitute_flatten order (braceFree_perm horder.symm hb) segs hw,
    render_perm horder (wf_perm horder.symm hwf)]

/-- Witness of C6: the greeting of the specification, entries visited with
`age` first. -/
theorem C6_execute_flat_template_witness :
    Prompt.Execute ⟨str "greet", [], [⟨str "name", [], true⟩],
        str "Hello \x7bname\x7d, you are \x7bage\x7d years old."⟩
        [(str "age", str "30"), (str "name", str "Ann")] =
      (render [(str "name", str "Ann"), (str "age", str "30")]
        [Segment.text (str "Hello "), Segment.hole (str "name"),
          Segment.text (str ", you are "), Segment.hole (str "age"),
          Segment.text (str " years old.")], none) ∧
    render [(str "name", str "Ann"), (str "age", str "30")]
        [Segment.text (str "Hello "), Segment.hole (str "name"),
          Segment.text (str ", you are "), Segment.hole (str "age"),
          Segment.text (str " years old.")] = str "Hello Ann, you are 30 years old." :=
  ⟨C6_execute_flat_template _ _ _ _ (by decide) (by decide) (by decide) (by decide)
    (by decide) (List.Perm.swap _ _ _), by decide⟩

/-- C3 (as stated, refuted): with the template `{a}` and the single entry
`a ↦ {a}` every required argument is present and the output is `{a}` again,
which contains the placeholder of the key `a`. -/
theorem C3_counterexample :
    ¬ ∀ (p : Prompt) (args : ArgMap), ArgMap.WF args → Satisfies args p.Arguments →
        (p.Execute args).2 = none ∧
          ∀ k ∈ ArgMap.keys args, ¬ placeholder k <:+: (p.Execute args).1 := by
  intro h
  have h1 := (h ⟨[], [], [], str "\x7ba\x7d"⟩ [(str "a", str "\x7ba\x7d")]
    (by decide) (by decide)).2 (str "a") (by decide)
  exact h1 ⟨[], [], by decide⟩

/-- C3 (amended): on a template made of brace-free text and well-formed
placeholders, with brace-free keys and values and the required arguments
present, `Execute` succeeds and its output contains the placeholder of no key
of `args`, in whatever order the entries are visited. -/
theorem C3_execute_no_placeholder_left (p : Prompt) (segs : List Segment)
    (args : ArgMap) (hT : p.Template = flatten segs) (hw : WellFormed segs)
    (hb : ArgMap.BraceFree args) (hs : Satisfies args p.Arguments) :
    (p.Execute args).2 = none ∧
      ∀ k ∈ ArgMap.keys args, ¬ placeholder k <:+: (p.Execute args).1 := by
  rw [execute_of_satisfies p args hs, hT, substitute_flatten args hb segs hw]
  refine ⟨rfl, fun k hk hin => ?_⟩
  obtain ⟨kv, hkv, hkk⟩ := List.mem_map.1 hk
  have hkb : BraceFree k := hkk ▸ (hb kv hkv).1
  exact hole_not_mem_map_fill args segs k hk
    (hole_mem_of_infix_flatten k hkb _ (wellFormed_map_fill args hb segs hw) hin)

/-- Witness of C3 (amended): the greeting of the specification, entries
visited with `age` first. -/
theorem C3_execute_no_placeholder_left_witness :
    (Prompt.Execute ⟨str "greet", [], [⟨str "name", [], true⟩],
        str "Hello \x7bname\x7d, you are \x7bage\x7d years old."⟩
        [(str "age", str "30"), (str "name", str "Ann")]).2 = none ∧
      ∀ k ∈ ArgMap.keys [(str "age", str "30"), (str "name", str "Ann")],
        ¬ placeholder k <:+: (Prompt.Execute ⟨str "greet", [], [⟨str "name", [], true⟩],
          str "Hello \x7bname\x7d, you are \x7bage\x7d years old."⟩
          [(str "age", str "30"), (str "name", str "Ann")]).1 :=
  C3_execute_no_placeholder_left _
    [Segment.text (str "Hello "), Segment.hole (str "name"),
      Segment.text (str ", you are "), Segment.hole (str "age"),
      Segment.text (str " years old.")] _
    (by decide) (by decide) (by decide) (by decide)

/-- C4 (as stated, refuted): with the template `{a}` and the entries
`a ↦ {b}`, `b ↦ x`, visiting `a` first gives `x` and visiting `b` first gives
`{b}`. -/
theorem C4_counterexample :
    ¬ ∀ (p : Prompt) (args order : ArgMap), ArgMap.WF args → order.Perm args →
        p.Execute order = p.Execute args := by
  intro h
  have h1 := h ⟨[], [], [], str "\x7ba\x7d"⟩
    [(str "a", str "\x7bb\x7d"), (str "b", str "x")]
    [(str "b", str "x"), (str "a", str "\x7bb\x7d")] (by decide) (List.Perm.swap _ _ _)
  revert h1
  decide

/-- C4 (amended): on a template made of brace-free text and well-formed
placeholders and a map with brace-free keys and values, any two orders of
visiting the entries give the same result of `Execute`, output and error alike. -/
theorem C4_execute_order_independent (p : Prompt) (segs : List Segment)
    (args order1 order2 : ArgMap) (hT : p.Template = flatten segs) (hw : WellFormed segs)
    (hwf : ArgMap.WF args) (hb : ArgMap.BraceFree args)
    (h1 : order1.Perm args) (h2 : order2.Perm args) :
    p.Execute order1 = p.Execute order2 := by
  have h12 : order1.Perm order2 := h1.trans h2.symm
  have hc := check_perm h12 p.Arguments
  cases hc1 : Execute.check order1 p.Arguments with
  | some e =>
    rw [execute_of_check_some p order1 e hc1, execute_of_check_some p order2 e (hc ▸ hc1)]
  | none =>
    rw [execute_of_check_none p order1 hc1, execute_of_check_none p order2 (hc ▸ hc1), hT,
      substitute_flatten order1 (braceFree_perm h1.symm hb) segs hw,
      substitute_flatten order2 (braceFree_perm h2.symm hb) segs hw,
      render_perm h12 (wf_perm h1.symm hwf)]

/-- Witness of C4 (amended): the greeting of the specification, visited in
both orders. -/
theorem C4_execute_order_independent_witness :
    Prompt.Execute ⟨str "greet", [], [⟨str "name", [], true⟩],
        str "Hello \x7bname\x7d, you are \x7bage\x7d years old."⟩
        [(str "name", str "Ann"), (str "age", str "30")] =
      Prompt.Execute ⟨str "greet", [], [⟨str "name", [], true⟩],
        str "Hello \x7bname\x7d, you are \x7bage\x7d years old."⟩
        [(str "age", str "30"), (str "name", str "Ann")] :=
  C4_execute_order_independent _
    [Segment.text (str "Hello "), Segment.hole (str "name"),
      Segment.text (str ", you are "), Segment.hole (str "age"),
      Segment.text (str " years old.")] [(str "name", str "Ann"), (str "age", str "30")] _ _
    (by decide) (by decide) (by decide) (by decide) (List.Perm.refl _) (List.Perm.swap _ _ _)

/-! ## The one-scan substitution on flat templates -/

theorem original_scan_skip (args : ArgMap) (xs rest : GoString) :
    replaceOriginal.scan args xs.length (xs ++ rest) = replaceOriginal.scan args 0 rest := by
  induction xs with
  | nil => rfl
  | cons x xs ih => simpa [replaceOriginal.scan] using ih

theorem placeholderAt_of_ne (args : ArgMap) (c : Char) (s : GoString) (hc : c ≠ lbrace) :
    placeholderAt args (c :: s) = none := by
  unfold placeholderAt
  rw [List.find?_eq_none]
  intro kv _
  simp only [decide_eq_true_eq]
  unfold placeholder
  rw [List.cons_prefix_cons]
  exact fun h => hc h.1.symm

theorem original_scan_copy (args : ArgMap) (t rest : GoString) (ht : lbrace ∉ t) :
    replaceOriginal.scan args 0 (t ++ rest) = t ++ replaceOriginal.scan args 0 rest := by
  induction t with
  | nil => rfl
  | cons c t ih =>
    have hc : c ≠ lbrace := fun h => ht (h ▸ List.mem_cons_self c t)
    rw [List.cons_append, replaceOriginal.scan, placeholderAt_of_ne args c _ hc]
    simp only
    rw [ih (fun hm => ht (List.mem_cons_of_mem _ hm))]
    rfl

/-- At a placeholder of a flat template the entry found is the one `lookup` finds. -/
theorem placeholderAt_placeholder (args : ArgMap) (hb : ArgMap.KeysBraceFree args)
    (n rest : GoString) (hn : BraceFree n) :
    placeholderAt args (placeholder n ++ rest) =
      (List.lookup n args).map (fun v => (n, v)) := by
  induction args with
  | nil => rfl
  | cons kv as ih =>
    obtain ⟨k, v⟩ := kv
    have hk : BraceFree k := hb (k, v) (List.mem_cons_self _ _)
    have has : ArgMap.KeysBraceFree as := fun x hx => hb x (List.mem_cons_of_mem _ hx)
    unfold placeholderAt at ih ⊢
    by_cases hnk : n = k
    · subst hnk
      have hp : placeholder n <+: placeholder n ++ rest := List.prefix_append _ _
      simp [List.find?, List.lookup, hp]
    · have hp : ¬ placeholder k <+: placeholder n ++ rest :=
        fun h => hnk (placeholder_prefix_placeholder hk hn h).symm
      have hbeq : (n == k) = false := by simpa using hnk
      simp only [List.find?, List.lookup, hp, decide_False, hbeq]
      exact ih has

/-- On a flat template the one-scan substitution is the rendering of the specification. -/
theorem replaceOriginal_flatten (args : ArgMap) (hb : ArgMap.KeysBraceFree args)
    (segs : List Segment) (hw : WellFormed segs) :
    replaceOriginal (flatten segs) args = render args segs := by
  unfold replaceOriginal render
  induction segs with
  | nil => rfl
  | cons s rest ih =>
    obtain ⟨hs, hrest⟩ := wellFormed_cons.1 hw
    cases s with
    | text t =>
      simp only [flatten, Segment.flatten, List.map_cons, Segment.fill]
      rw [original_scan_copy args t _ hs.1, ih hrest]
    | hole n =>
      have hpa := placeholderAt_placeholder args hb n (flatten rest) hs
      have h2 : placeholder n ++ flatten rest = lbrace :: ((n ++ [rbrace]) ++ flatten rest) := by
        simp [placeholder]
      simp only [flatten, Segment.flatten, List.map_cons, Segment.fill]
      rw [h2] at hpa ⊢
      rw [replaceOriginal.scan, hpa]
      cases hl : List.lookup n args with
      | some v =>
        have h3 : n.length + 1 = (n ++ [rbrace]).length := by simp
        simp only [Option.map_some']
        rw [h3, original_scan_skip, ih hrest]
      | none =>
        have h4 : lbrace ∉ n ++ [rbrace] := by
          simp only [List.mem_append, List.mem_singleton, not_or]
          exact ⟨hs.1, lbrace_ne_rbrace⟩
        simp only [Option.map_none']
        rw [original_scan_copy args _ _ h4, ih hrest]
        simp [placeholder, Segment.flatten]

theorem keysBraceFree_of_braceFree {args : ArgMap} (hb : ArgMap.BraceFree args) :
    ArgMap.KeysBraceFree args := fun kv hkv => (hb kv hkv).1

/-- C5 (as stated, refuted): with the template `{a}` and the entries
`a ↦ {b}`, `b ↦ x` visited in this order, the only placeholder token of the
original template is `{a}` and replacing it gives `{b}`, but `Execute` scans
the inserted value again and returns `x`. -/
theorem C5_counterexample :
    ¬ ∀ (p : Prompt) (args : ArgMap), ArgMap.WF args → Satisfies args p.Arguments →
        p.Execute args = (replaceOriginal p.Template args, none) := by
  intro h
  have h1 := h ⟨[], [], [], str "\x7ba\x7d"⟩
    [(str "a", str "\x7bb\x7d"), (str "b", str "x")] (by decide) (by decide)
  revert h1
  decide

/-- C5 (amended): on a template made of brace-free text and well-formed
placeholders, with brace-free keys and values and the required arguments
present, the output of `Execute` is the result of replacing, in one scan of
the original template, each placeholder token of a key by the value of that
key: inserted values are not substituted again. -/
theorem C5_execute_eq_replaceOriginal (p : Prompt) (segs : List Segment) (args : ArgMap)
    (hT : p.Template = flatten segs) (hw : WellFormed segs)
    (hb : ArgMap.BraceFree args) (hs : Satisfies args p.Arguments) :
    p.Execute args = (replaceOriginal p.Template args, none) := by
  rw [execute_of_satisfies p args hs, hT, substitute_flatten args hb segs hw,
    replaceOriginal_flatten args (keysBraceFree_of_braceFree hb) segs hw]

/-- Witness of C5 (amended): the greeting of the specification. -/
theorem C5_execute_eq_replaceOriginal_witness :
    Prompt.Execute ⟨str "greet", [], [⟨str "name", [], true⟩],
        str "Hello \x7bname\x7d, you are \x7bage\x7d years old."⟩
        [(str "name", str "Ann"), (str "age", str "30")] =
      (replaceOriginal (str "Hello \x7bname\x7d, you are \x7bage\x7d years old.")
        [(str "name", str "Ann"), (str "age", str "30")], none) :=
  C5_execute_eq_replaceOriginal _
    [Segment.text (str "Hello "), Segment.hole (str "name"),
      Segment.text (str ", you are "), Segment.hole (str "age"),
      Segment.text (str " years old.")] _
    (by decide) (by decide) (by decide) (by decide)

/-! ## Placeholders of names that are not keys -/

/-- A placeholder of another brace-free name is a barrier for the scan: no
match reaches into it, and the scan of the text before it and of the text
behind it are independent. -/
theorem scan_barrier (k v n : GoString) (hk : BraceFree k) (hn : BraceFree n) (hne : k ≠ n)
    (pre post : GoString) (skip : Nat) (hskip : skip ≤ pre.length) :
    ReplaceAll.scan (placeholder k) v skip (pre ++ (placeholder n ++ post)) =
      ReplaceAll.scan (placeholder k) v skip pre ++
        (placeholder n ++ ReplaceAll.scan (placeholder k) v 0 post) := by
  induction pre generalizing skip with
  | nil =>
    have h0 : skip = 0 := Nat.le_zero.1 hskip
    subst h0
    rw [List.nil_append, scan_placeholder_other k v n post hk hn hne]
    rfl
  | cons c cs ih =>
    cases skip with
    | succ s =>
      rw [List.cons_append, ReplaceAll.scan, ReplaceAll.scan]
      exact ih s (Nat.le_of_succ_le_succ hskip)
    | zero =>
      by_cases hp : placeholder k <+: c :: cs
      · have hp2 : placeholder k <+: c :: (cs ++ (placeholder n ++ post)) :=
          hp.trans (List.prefix_append (c :: cs) _)
        have hlen : (placeholder k).length - 1 ≤ cs.length := by
          have := hp.length_le
          simp only [List.length_cons] at this
          omega
        rw [List.cons_append, ReplaceAll.scan, ReplaceAll.scan, if_pos hp, if_pos hp2,
          ih _ hlen, List.append_assoc]
      · have hp2 : ¬ placeholder k <+: c :: (cs ++ (placeholder n ++ post)) := by
          intro h
          apply hp
          unfold placeholder at h ⊢
          rw [List.cons_prefix_cons] at h ⊢
          refine ⟨h.1, ?_⟩
          have h4 : lbrace ∉ k ++ [rbrace] := by
            simp only [List.mem_append, List.mem_singleton, not_or]
            exact ⟨hk.1, lbrace_ne_rbrace⟩
          have h5 := h.2
          rw [List.cons_append] at h5
          exact prefix_of_prefix_append_cons h4 h5
        rw [List.cons_append, ReplaceAll.scan, ReplaceAll.scan, if_neg hp, if_neg hp2,
          ih 0 (Nat.zero_le _)]
        rfl

/-- The substitution loop leaves the placeholder of a brace-free name that is
not a key where it is, and rewrites the text on either side on its own. -/
theorem substitute_barrier (args : ArgMap) (hkeys : ArgMap.KeysBraceFree args)
    (n : GoString) (hn : BraceFree n) (hnk : n ∉ ArgMap.keys args) (pre post : GoString) :
    Execute.substitute (pre ++ placeholder n ++ post) args =
      Execute.substitute pre args ++ placeholder n ++ Execute.substitute post args := by
  induction args generalizing pre post with
  | nil => rfl
  | cons kv rest ih =>
    obtain ⟨k, v⟩ := kv
    have hk : BraceFree k := hkeys (k, v) (List.mem_cons_self _ _)
    have hrest : ArgMap.KeysBraceFree rest := fun x hx => hkeys x (List.mem_cons_of_mem _ hx)
    have hne : k ≠ n := fun h => hnk (by simp [ArgMap.keys, h])
    have hnk2 : n ∉ ArgMap.keys rest := fun h => hnk (by
      simp only [ArgMap.keys, List.map_cons, List.mem_cons]
      exact Or.inr h)
    simp only [Execute.substitute]
    rw [replaceAll_placeholder, replaceAll_placeholder, replaceAll_placeholder,
      List.append_assoc, scan_barrier k v n hk hn hne pre post 0 (Nat.zero_le _),
      ← List.append_assoc, ih hrest hnk2]

/-! ## Claims on unmatched placeholders -/

/-- C7 (as stated, refuted), twice.  With the template `{x{k}}` and the entry
`k ↦ v`, the name `x{k}` is not a key and its placeholder is the whole
template, yet the output is `{xv}`.  With the template `{a{n}` and the entry
`a{n ↦ v`, the name `n` is not a key and `{n}` ends the template, yet the
output is `v`.  Brace-free keys alone, or a brace-free name alone, do not save
the claim. -/
theorem C7_counterexample :
    (¬ ∀ (p : Prompt) (args : ArgMap) (n : GoString), ArgMap.WF args →
        Satisfies args p.Arguments → ArgMap.KeysBraceFree args → n ∉ ArgMap.keys args →
        placeholder n <:+: p.Template → placeholder n <:+: (p.Execute args).1) ∧
    (¬ ∀ (p : Prompt) (args : ArgMap) (n : GoString), ArgMap.WF args →
        Satisfies args p.Arguments → BraceFree n → n ∉ ArgMap.keys args →
        placeholder n <:+: p.Template → placeholder n <:+: (p.Execute args).1) := by
  constructor
  · intro h
    have h1 := h ⟨[], [], [], str "\x7bx\x7bk\x7d\x7d"⟩ [(str "k", str "v")]
      (str "x\x7bk\x7d") (by decide) (by decide) (by decide) (by decide) ⟨[], [], by decide⟩
    revert h1
    decide
  · intro h
    have h1 := h ⟨[], [], [], str "\x7ba\x7bn\x7d"⟩ [(str "a\x7bn", str "v")]
      (str "n") (by decide) (by decide) (by decide) (by decide)
      ⟨str "\x7ba", [], by decide⟩
    revert h1
    decide

/-- C7 (amended): when the keys of `args` are brace-free and the required
arguments are present, `Execute` raises no error and an occurrence in the
template of the placeholder of a brace-free name that is not a key stands
unchanged in the output, between the substituted text before it and the
substituted text behind it; and with an empty `args` and no required argument
the output is the template. -/
theorem C7_unmatched_placeholder_kept (p : Prompt) (args : ArgMap) (n pre post : GoString)
    (hkeys : ArgMap.KeysBraceFree args) (hs : Satisfies args p.Arguments)
    (hn : BraceFree n) (hnk : n ∉ ArgMap.keys args)
    (hT : p.Template = pre ++ placeholder n ++ post) :
    p.Execute args =
        (Execute.substitute pre args ++ placeholder n ++ Execute.substitute post args,
          none) ∧
      (Satisfies [] p.Arguments → p.Execute [] = (p.Template, none)) := by
  constructor
  · rw [execute_of_satisfies p args hs, hT, substitute_barrier args hkeys n hn hnk]
  · intro h0
    rw [execute_of_satisfies p [] h0]
    rfl

/-- Witness of C7 (amended): the greeting of the specification rendered with
`name` alone keeps `{age}`, and rendered with no entry at all is unchanged. -/
theorem C7_unmatched_placeholder_kept_witness :
    Prompt.Execute ⟨str "greet", [], [⟨str "name", [], false⟩],
        str "Hello \x7bname\x7d, you are \x7bage\x7d years old."⟩
        [(str "name", str "Ann")] =
      (str "Hello Ann, you are \x7bage\x7d years old.", none) ∧
    Prompt.Execute ⟨str "greet", [], [⟨str "name", [], false⟩],
        str "Hello \x7bname\x7d, you are \x7bage\x7d years old."⟩ [] =
      (str "Hello \x7bname\x7d, you are \x7bage\x7d years old.", none) :=
  ⟨(C7_unmatched_placeholder_kept
      ⟨str "greet", [], [⟨str "name", [], false⟩],
        str "Hello \x7bname\x7d, you are \x7bage\x7d years old."⟩
      [(str "name", str "Ann")] (str "age") (str "Hello \x7bname\x7d, you are ")
      (str " years old.") (by decide) (by decide) (by decide) (by decide)
      (by decide)).1.trans (by decide),
    (C7_unmatched_placeholder_kept
      ⟨str "greet", [], [⟨str "name", [], false⟩],
        str "Hello \x7bname\x7d, you are \x7bage\x7d years old."⟩
      [(str "name", str "Ann")] (str "age") (str "Hello \x7bname\x7d, you are ")
      (str " years old.") (by decide) (by decide) (by decide) (by decide)
      (by decide)).2 (by decide)⟩

/-! ## Claims on the error of the validation loop -/

/-- The loop over `pre ++ A :: post` stops at `A` when the required arguments
of `pre` are keys and `A` is required and is not a key. -/
theorem check_append_missing (args : ArgMap) (pre post : List PromptArgument)
    (A : PromptArgument) (hpre : Satisfies args pre) (hreq : A.Required = true)
    (hmiss : A.Name ∉ ArgMap.keys args) :
    Execute.check args (pre ++ A :: post) = some (missingArgument A.Name) := by
  induction pre with
  | nil =>
    have hk : ArgMap.has args A.Name = false := (has_eq_false_iff args A.Name).2 hmiss
    simp [Execute.check, hreq, hk]
  | cons a rest ih =>
    have hrest : Satisfies args rest := fun b hb hr => hpre b (List.mem_cons_of_mem _ hb) hr
    rw [List.cons_append, Execute.check]
    by_cases hr : a.Required = true
    · have hk : ArgMap.has args a.Name = true :=
        (has_eq_true_iff args a.Name).2 (hpre a (List.mem_cons_self _ _) hr)
      rw [if_pos hr, if_pos hk]
      exact ih hrest
    · rw [if_neg hr]
      exact ih hrest

/-- The first loop of `Execute` looks at the keys of the map only. -/
theorem check_congr_keys {args args2 : ArgMap}
    (hkeys : ∀ n, n ∈ ArgMap.keys args2 ↔ n ∈ ArgMap.keys args) (l : List PromptArgument) :
    Execute.check args2 l = Execute.check args l := by
  have hhas : ∀ n, ArgMap.has args2 n = ArgMap.has args n := by
    intro n
    rw [Bool.eq_iff_iff, has_eq_true_iff, has_eq_true_iff]
    exact hkeys n
  induction l with
  | nil => rfl
  | cons a rest ih => simp only [Execute.check, hhas, ih]

/-- C14: whenever `Execute` returns an error, the string it returns is empty,
whatever the template and the entries of `args` are. -/
theorem C14_no_partial_output (p : Prompt) (args : ArgMap)
    (herr : (p.Execute args).2 ≠ none) : (p.Execute args).1 = [] := by
  cases hc : Execute.check args p.Arguments with
  | none =>
    rw [execute_of_check_none p args hc] at herr
    exact absurd rfl herr
  | some e => rw [execute_of_check_some p args e hc]

/-- Witness of C14: the greeting of the specification with `name` required
and only `age` given; the placeholder of `age` could have been filled. -/
theorem C14_no_partial_output_witness :
    (Prompt.Execute ⟨str "greet", [], [⟨str "name", [], true⟩],
        str "Hello \x7bname\x7d, you are \x7bage\x7d years old."⟩
        [(str "age", str "30")]).1 = [] :=
  C14_no_partial_output _ _ (by decide)

/-- C15: when the declared arguments are `pre ++ A :: post`, every required
argument of `pre` is a key of `args`, and `A` is required and is not a key,
both `Execute` and `ValidateArguments` return the error whose message is
`missing required argument: ` followed by the name of `A`, and they do so on
every map with the same keys as `args`, whatever its values and the order of
its entries. -/
theorem C15_first_missing_reported (p : Prompt) (pre post : List PromptArgument)
    (A : PromptArgument) (args args2 : ArgMap) (hargs : p.Arguments = pre ++ A :: post)
    (hpre : Satisfies args pre) (hreq : A.Required = true)
    (hmiss : A.Name ∉ ArgMap.keys args)
    (hkeys : ∀ n, n ∈ ArgMap.keys args2 ↔ n ∈ ArgMap.keys args) :
    p.Execute args2 =
        ([], some (GoError.errorf (str "missing required argument: " ++ A.Name))) ∧
      p.ValidateArguments args2 =
        some (GoError.errorf (str "missing required argument: " ++ A.Name)) := by
  have hc : Execute.check args2 p.Arguments = some (missingArgument A.Name) := by
    rw [check_congr_keys hkeys, hargs]
    exact check_append_missing args pre post A hpre hreq hmiss
  have hmsg : missingArgument A.Name =
      GoError.errorf (str "missing required argument: " ++ A.Name) := rfl
  rw [← hmsg]
  refine ⟨execute_of_check_some p args2 _ hc, ?_⟩
  unfold Prompt.ValidateArguments
  rw [validate_loop_eq_check, hc]

/-- Witness of C15: `name`, `city` and `age` are required, `name` is given;
the message names `city`, not `age`, also when the entries change value and
order. -/
theorem C15_first_missing_reported_witness :
    Prompt.Execute ⟨str "greet", [],
        [⟨str "name", [], true⟩, ⟨str "nick", [], false⟩, ⟨str "city", [], true⟩,
          ⟨str "age", [], true⟩], str "Hello \x7bname\x7d"⟩
        [(str "extra", str "1"), (str "name", str "Bob")] =
      ([], some (GoError.errorf (str "missing required argument: city"))) ∧
    Prompt.ValidateArguments ⟨str "greet", [],
        [⟨str "name", [], true⟩, ⟨str "nick", [], false⟩, ⟨str "city", [], true⟩,
          ⟨str "age", [], true⟩], str "Hello \x7bname\x7d"⟩
        [(str "extra", str "1"), (str "name", str "Bob")] =
      some (GoError.errorf (str "missing required argument: city")) :=
  C15_first_missing_reported _ [⟨str "name", [], true⟩, ⟨str "nick", [], false⟩]
    [⟨str "age", [], true⟩] ⟨str "city", [], true⟩
    [(str "name", str "Ann"), (str "extra", str "0")] _ rfl (by decide) rfl (by decide)
    (by
      intro n
      simp only [ArgMap.keys, List.map_cons, List.map_nil, List.mem_cons, List.mem_singleton,
        List.not_mem_nil, or_false]
      exact or_comm)

/-! ## The envelope decoded at line 77 -/

theorem lower_eq_of_fieldMatches {key name : GoString} (h : fieldMatches key name = true) :
    key.map foldRune = name.map foldRune := by
  unfold fieldMatches at h
  simp only [Bool.or_eq_true, decide_eq_true_eq] at h
  rcases h with h | h
  · rw [h]
  · exact h

/-- No member name is both `role` and `content`. -/
theorem not_content_of_role {key : GoString} (h : fieldMatches key (str "role") = true) :
    fieldMatches key (str "content") = false := by
  cases hc : fieldMatches key (str "content") with
  | false => rfl
  | true =>
    have h1 := lower_eq_of_fieldMatches h
    have h2 := lower_eq_of_fieldMatches hc
    rw [h1] at h2
    exact absurd h2 (by decide)

theorem store_content (aux : Aux) (key : GoString) (value : JSON) :
    (aux.store key value).Content =
      if fieldMatches key (str "content") then some value else aux.Content := by
  unfold Aux.store
  by_cases hc : fieldMatches key (str "content") = true
  · simp only [hc, if_true]
  · by_cases hr : fieldMatches key (str "role") = true
    · simp only [hc, hr, if_true]
      cases value <;> simp only [] <;> first | rfl | (cases aux.saved <;> rfl)
    · simp only [hc, hr]
      rfl

theorem store_role (aux : Aux) (key : GoString) (value : JSON) :
    (aux.store key value).Role = (roleOf (key, value)).getD aux.Role := by
  unfold Aux.store roleOf
  by_cases hr : fieldMatches key (str "role") = true
  · have hc := not_content_of_role hr
    simp only [hc, hr, if_true]
    cases value <;> simp only [] <;> first | rfl | (cases aux.saved <;> rfl)
  · by_cases hc : fieldMatches key (str "content") = true
    · simp only [hc, hr, if_true]
      rfl
    · simp only [hc, hr]
      rfl

theorem store_saved (aux : Aux) (key : GoString) (value : JSON) :
    (aux.store key value).saved = none ↔
      aux.saved = none ∧ memberFits (key, value) = true := by
  unfold Aux.store memberFits
  by_cases hr : fieldMatches key (str "role") = true
  · have hc := not_content_of_role hr
    simp only [hc, hr, if_true]
    cases value <;> cases hs : aux.saved <;> simp [hs]
  · by_cases hc : fieldMatches key (str "content") = true
    · simp [hc, hr]
    · simp [hc, hr]

theorem fold_store_content (role : GoString) (members : List (GoString × JSON)) :
    (List.foldl (fun (aux : Aux) (kv : GoString × JSON) => aux.store kv.1 kv.2)
        ⟨role, none, none⟩ members).Content =
      (members.reverse.find? (fun kv => fieldMatches kv.1 (str "content"))).map Prod.snd := by
  induction members using List.reverseRecOn with
  | nil => rfl
  | append_singleton l a ih =>
    rw [List.foldl_append, List.reverse_append]
    simp only [List.foldl_cons, List.foldl_nil, List.reverse_cons, List.reverse_nil,
      List.nil_append, List.singleton_append, List.find?_cons]
    rw [store_content, ih]
    cases fieldMatches a.1 (str "content") <;> rfl

theorem fold_store_role (role : GoString) (members : List (GoString × JSON)) :
    (List.foldl (fun (aux : Aux) (kv : GoString × JSON) => aux.store kv.1 kv.2)
        ⟨role, none, none⟩ members).Role =
      (members.reverse.findSome? roleOf).getD role := by
  induction members using List.reverseRecOn with
  | nil => rfl
  | append_singleton l a ih =>
    rw [List.foldl_append, List.reverse_append]
    simp only [List.foldl_cons, List.foldl_nil, List.reverse_cons, List.reverse_nil,
      List.nil_append, List.singleton_append, List.findSome?_cons]
    rw [store_role, ih]
    cases roleOf (a.1, a.2) <;> rfl

theorem fold_store_saved (role : GoString) (members : List (GoString × JSON)) :
    (List.foldl (fun (aux : Aux) (kv : GoString × JSON) => aux.store kv.1 kv.2)
        ⟨role, none, none⟩ members).saved = none ↔
      members.all memberFits = true := by
  induction members using List.reverseRecOn with
  | nil => simp
  | append_singleton l a ih =>
    rw [List.foldl_append, List.all_append]
    simp only [List.foldl_cons, List.foldl_nil, List.all_cons, List.all_nil, Bool.and_true,
      Bool.and_eq_true]
    rw [store_saved, ih]

/-- The raw content line 77 leaves in `aux` is the content payload of the envelope. -/
theorem decodeAux_content (role : GoString) (doc : JSON) :
    (decodeAux role doc).Content = envelopeContent doc := by
  cases doc with
  | object members => exact fold_store_content role members
  | null => rfl
  | bool b => rfl
  | number n => rfl
  | string s => rfl
  | array items => rfl

/-- The role line 77 leaves in the receiver is the role of the envelope, or the
role the receiver had when the envelope carries none. -/
theorem decodeAux_role (role : GoString) (doc : JSON) :
    (decodeAux role doc).Role = (envelopeRole doc).getD role := by
  cases doc with
  | object members => exact fold_store_role role members
  | null => rfl
  | bool b => rfl
  | number n => rfl
  | string s => rfl
  | array items => rfl

/-- Line 77 reports an error on every envelope that is not well-formed, the
text `null` apart, which it leaves to line 83. -/
theorem decodeAux_saved (role : GoString) (doc : JSON) :
    (decodeAux role doc).saved = none ↔ envelopeWellFormed doc = true ∨ doc = JSON.null := by
  cases doc with
  | object members =>
    simp only [decodeAux, envelopeWellFormed, reduceCtorEq, or_false]
    exact fold_store_saved role members
  | null => simp [decodeAux]
  | bool b => simp [decodeAux, envelopeWellFormed]
  | number n => simp [decodeAux, envelopeWellFormed]
  | string s => simp [decodeAux, envelopeWellFormed]
  | array items => simp [decodeAux, envelopeWellFormed]

/-! ## The paths through `UnmarshalJSON` -/

/-- A failing `switch` leaves the receiver as it found it. -/
theorem dispatch_of_error (V : Variants) (pm : PromptMessage V) (raw : RawMessage)
    (tag : GoString) (h : (UnmarshalJSON.dispatch V pm raw tag).2 ≠ none) :
    (UnmarshalJSON.dispatch V pm raw tag).1 = pm := by
  unfold UnmarshalJSON.dispatch at h ⊢
  by_cases h1 : tag = ContentTypeText
  · rw [if_pos h1] at h ⊢
    cases hd : V.text raw with
    | error e => rfl
    | ok c => rw [hd] at h; exact absurd rfl h
  · rw [if_neg h1] at h ⊢
    by_cases h2 : tag = ContentTypeImage
    · rw [if_pos h2] at h ⊢
      cases hd : V.image raw with
      | error e => rfl
      | ok c => rw [hd] at h; exact absurd rfl h
    · rw [if_neg h2] at h ⊢
      by_cases h3 : tag = ContentTypeResource
      · rw [if_pos h3] at h ⊢
        cases hd : V.resource raw with
        | error e => rfl
        | ok c => rw [hd] at h; exact absurd rfl h
      · rw [if_neg h3]

/-- A `switch` that succeeds ran the decoder of the variant its tag names and
stored what that decoder returned. -/
theorem dispatch_of_ok (V : Variants) (pm : PromptMessage V) (raw : RawMessage)
    (tag : GoString) (h : (UnmarshalJSON.dispatch V pm raw tag).2 = none) :
    (tag = ContentTypeText ∧ ∃ c, V.text raw = Except.ok c ∧
        (UnmarshalJSON.dispatch V pm raw tag).1 = ⟨pm.Role, some (Content.text c)⟩) ∨
      (tag = ContentTypeImage ∧ ∃ c, V.image raw = Except.ok c ∧
        (UnmarshalJSON.dispatch V pm raw tag).1 = ⟨pm.Role, some (Content.image c)⟩) ∨
      (tag = ContentTypeResource ∧ ∃ c, V.resource raw = Except.ok c ∧
        (UnmarshalJSON.dispatch V pm raw tag).1 = ⟨pm.Role, some (Content.resource c)⟩) := by
  unfold UnmarshalJSON.dispatch at h ⊢
  by_cases h1 : tag = ContentTypeText
  · rw [if_pos h1] at h ⊢
    cases hd : V.text raw with
    | error e => rw [hd] at h; cases h
    | ok c => exact Or.inl ⟨h1, c, rfl, rfl⟩
  · rw [if_neg h1] at h ⊢
    by_cases h2 : tag = ContentTypeImage
    · rw [if_pos h2] at h ⊢
      cases hd : V.image raw with
      | error e => rw [hd] at h; cases h
      | ok c => exact Or.inr (Or.inl ⟨h2, c, rfl, rfl⟩)
    · rw [if_neg h2] at h ⊢
      by_cases h3 : tag = ContentTypeResource
      · rw [if_pos h3] at h ⊢
        cases hd : V.resource raw with
        | error e => rw [hd] at h; cases h
        | ok c => exact Or.inr (Or.inr ⟨h3, c, rfl, rfl⟩)
      · rw [if_neg h3] at h
        cases h

/-- A `switch` whose selected decoder fails returns an error. -/
theorem dispatch_of_variantFails (V : Variants) (pm : PromptMessage V) (raw : RawMessage)
    (tag : GoString) (h : variantFails V tag raw) :
    (UnmarshalJSON.dispatch V pm raw tag).2 ≠ none := by
  have htext_image : ContentTypeText ≠ ContentTypeImage := by decide
  have htext_resource : ContentTypeText ≠ ContentTypeResource := by decide
  have himage_resource : ContentTypeImage ≠ ContentTypeResource := by decide
  unfold UnmarshalJSON.dispatch
  rcases h with ⟨h1, e, he⟩ | ⟨h2, e, he⟩ | ⟨h3, e, he⟩
  · rw [if_pos h1, he]
    exact fun h => Option.noConfusion h
  · have h1 : tag ≠ ContentTypeText := fun h => htext_image (h ▸ h2)
    rw [if_neg h1, if_pos h2, he]
    exact fun h => Option.noConfusion h
  · have h1 : tag ≠ ContentTypeText := fun h => htext_resource (h ▸ h3)
    have h2 : tag ≠ ContentTypeImage := fun h => himage_resource (h ▸ h3)
    rw [if_neg h1, if_neg h2, if_pos h3, he]
    exact fun h => Option.noConfusion h

theorem unmarshal_some (V : Variants) (pm : PromptMessage V) (doc : JSON)
    (hdepth : doc.depth ≤ maxNestingDepth) :
    PromptMessage.UnmarshalJSON V pm (some doc) = UnmarshalJSON.decode V pm doc := by
  simp only [PromptMessage.UnmarshalJSON, hdepth, if_true]

theorem unmarshal_deep (V : Variants) (pm : PromptMessage V) (doc : JSON)
    (hdepth : ¬ doc.depth ≤ maxNestingDepth) :
    PromptMessage.UnmarshalJSON V pm (some doc) = (pm, some GoError.malformed) := by
  simp only [PromptMessage.UnmarshalJSON, hdepth, if_false]

/-- An envelope that line 77 decodes is within the depth the scanner allows
and leaves no saved error. -/
theorem of_envelopeDecodes (role : GoString) (doc : JSON) (h : envelopeDecodes doc = true) :
    doc.depth ≤ maxNestingDepth ∧ (decodeAux role doc).saved = none := by
  unfold envelopeDecodes at h
  simp only [Bool.and_eq_true, decide_eq_true_eq] at h
  exact ⟨h.1, (decodeAux_saved role doc).2 (Or.inl h.2)⟩

/-- Lines 77-90 passed: the call is the `switch` on the tag. -/
theorem decode_of_type (V : Variants) (pm : PromptMessage V) (doc : JSON)
    (cmembers : List (GoString × JSON)) (tag : GoString)
    (hsaved : (decodeAux pm.Role doc).saved = none)
    (hcontent : (decodeAux pm.Role doc).Content = some (JSON.object cmembers))
    (hrange : membersOverflow cmembers = none)
    (htype : objectMap cmembers (str "type") = some (JSON.string tag)) :
    UnmarshalJSON.decode V pm doc =
      UnmarshalJSON.dispatch V ⟨(decodeAux pm.Role doc).Role, pm.Content⟩
        (some (JSON.object cmembers)) tag := by
  simp only [UnmarshalJSON.decode, hsaved, hcontent, decodeContentMap, hrange, htype]

/-- Lines 77-85 passed and the map holds no string under `type`: line 89. -/
theorem decode_of_no_type (V : Variants) (pm : PromptMessage V) (doc : JSON)
    (cmembers : List (GoString × JSON))
    (hsaved : (decodeAux pm.Role doc).saved = none)
    (hcontent : (decodeAux pm.Role doc).Content = some (JSON.object cmembers))
    (hrange : membersOverflow cmembers = none)
    (htype : ∀ tag, objectMap cmembers (str "type") ≠ some (JSON.string tag)) :
    UnmarshalJSON.decode V pm doc =
      (⟨(decodeAux pm.Role doc).Role, pm.Content⟩,
        some (GoError.errorf (str "content type not found or invalid"))) := by
  simp only [UnmarshalJSON.decode, hsaved, hcontent, decodeContentMap, hrange]

/-- A number outside the range of `float64` in the content object: line 84. -/
theorem decode_of_overflow (V : Variants) (pm : PromptMessage V) (doc : JSON)
    (cmembers : List (GoString × JSON)) (literal : GoString)
    (hsaved : (decodeAux pm.Role doc).saved = none)
    (hcontent : (decodeAux pm.Role doc).Content = some (JSON.object cmembers))
    (hrange : membersOverflow cmembers = some literal) :
    UnmarshalJSON.decode V pm doc =
      (⟨(decodeAux pm.Role doc).Role, pm.Content⟩, some (GoError.numberRange literal)) := by
  simp only [UnmarshalJSON.decode, hsaved, hcontent, decodeContentMap, hrange]

/-- Lines 77-115 either return an error with the receiver as line 77 left it,
or reach the `switch` with the content object and its tag. -/
theorem decode_paths (V : Variants) (pm : PromptMessage V) (doc : JSON) :
    (∃ err, UnmarshalJSON.decode V pm doc =
        (⟨(decodeAux pm.Role doc).Role, pm.Content⟩, some err)) ∨
      (∃ cmembers tag, (decodeAux pm.Role doc).saved = none ∧
        (decodeAux pm.Role doc).Content = some (JSON.object cmembers) ∧
        membersOverflow cmembers = none ∧
        objectMap cmembers (str "type") = some (JSON.string tag) ∧
        UnmarshalJSON.decode V pm doc =
          UnmarshalJSON.dispatch V ⟨(decodeAux pm.Role doc).Role, pm.Content⟩
            (some (JSON.object cmembers)) tag) := by
  cases hs : (decodeAux pm.Role doc).saved with
  | some err =>
    refine Or.inl ⟨err, ?_⟩
    simp only [UnmarshalJSON.decode, hs]
  | none =>
    cases hc : (decodeAux pm.Role doc).Content with
    | none =>
      refine Or.inl ⟨GoError.unexpectedEnd, ?_⟩
      simp only [UnmarshalJSON.decode, hs, hc, decodeContentMap]
    | some j =>
      cases j with
      | null =>
        refine Or.inl ⟨GoError.errorf (str "content type not found or invalid"), ?_⟩
        simp only [UnmarshalJSON.decode, hs, hc, decodeContentMap]
      | bool b =>
        refine Or.inl ⟨GoError.typeMismatch [], ?_⟩
        simp only [UnmarshalJSON.decode, hs, hc, decodeContentMap]
      | number n =>
        refine Or.inl ⟨GoError.typeMismatch [], ?_⟩
        simp only [UnmarshalJSON.decode, hs, hc, decodeContentMap]
      | string s =>
        refine Or.inl ⟨GoError.typeMismatch [], ?_⟩
        simp only [UnmarshalJSON.decode, hs, hc, decodeContentMap]
      | array items =>
        refine Or.inl ⟨GoError.typeMismatch [], ?_⟩
        simp only [UnmarshalJSON.decode, hs, hc, decodeContentMap]
      | object cmembers =>
        cases hr : membersOverflow cmembers with
        | some literal =>
          exact Or.inl ⟨GoError.numberRange literal,
            decode_of_overflow V pm doc cmembers literal hs hc hr⟩
        | none =>
          by_cases ht : ∃ tag, objectMap cmembers (str "type") = some (JSON.string tag)
          · obtain ⟨tag, ht⟩ := ht
            exact Or.inr ⟨cmembers, tag, rfl, rfl, hr, ht,
              decode_of_type V pm doc cmembers tag hs hc hr ht⟩
          · exact Or.inl ⟨GoError.errorf (str "content type not found or invalid"),
              decode_of_no_type V pm doc cmembers hs hc hr (fun tag h => ht ⟨tag, h⟩)⟩

/-- Every call on a JSON text either returns an error and leaves `Content` of
the receiver alone, or reaches the `switch` with the content object and its
tag. -/
theorem unmarshal_paths (V : Variants) (pm : PromptMessage V) (doc : JSON) :
    (∃ pm2 err, PromptMessage.UnmarshalJSON V pm (some doc) = (pm2, some err) ∧
        pm2.Content = pm.Content) ∨
      (∃ cmembers tag, doc.depth ≤ maxNestingDepth ∧
        (decodeAux pm.Role doc).saved = none ∧
        (decodeAux pm.Role doc).Content = some (JSON.object cmembers) ∧
        membersOverflow cmembers = none ∧
        objectMap cmembers (str "type") = some (JSON.string tag) ∧
        PromptMessage.UnmarshalJSON V pm (some doc) =
          UnmarshalJSON.dispatch V ⟨(decodeAux pm.Role doc).Role, pm.Content⟩
            (some (JSON.object cmembers)) tag) := by
  by_cases hdepth : doc.depth ≤ maxNestingDepth
  · rw [unmarshal_some V pm doc hdepth]
    rcases decode_paths V pm doc with ⟨err, he⟩ | ⟨cmembers, tag, hs, hc, hr, ht, he⟩
    · exact Or.inl ⟨_, err, he, rfl⟩
    · exact Or.inr ⟨cmembers, tag, hdepth, hs, hc, hr, ht, he⟩
  · exact Or.inl ⟨pm, GoError.malformed, unmarshal_deep V pm doc hdepth, rfl⟩

/-! ## Claims on the type discriminator -/

/-- The range check on literals around the largest `float64`,
`1.7976931348623157e308`, on a small magnitude and on strings that are no
number literals. -/
theorem fitsFloat64_examples :
    fitsFloat64 (str "7") = true ∧
      fitsFloat64 (str "-12.5e-3") = true ∧
      fitsFloat64 (str "1e-999") = true ∧
      fitsFloat64 (str "1.7976931348623158e308") = true ∧
      fitsFloat64 (str "1.7976931348623159e308") = false ∧
      fitsFloat64 (str "-1e999") = false ∧
      fitsFloat64 (str "1e") = false ∧
      fitsFloat64 (str "abc") = false := by
  decide!

/-- The literal `1e999` is read as `1 * 10 ^ 999`, which is beyond the range
of `float64`. -/
theorem not_fits_huge : fitsFloat64 (str "1e999") = false := by
  have hp : parseNumber (str "1e999") = some (1, 999) := by decide
  have he : Int.toNat 999 = 999 := rfl
  simp only [fitsFloat64, hp, he]
  norm_num [float64Limit]

/-- C9 (as stated, refuted), twice.  The envelope with role `user` and the
content `{"type":"video","n":1e999}` decodes at line 77, but line 83 cannot
turn `1e999` into a `float64` and line 84 returns its error.  The envelope
with the number 1 as role and the `video` content of the specification is
refused at line 77, whose error line 78 returns.  In neither case is the error
`unknown content type: video`; a well-formed envelope alone, or numbers in
range alone, do not save the claim. -/
theorem C9_counterexample :
    (¬ ∀ (pm : PromptMessage wire) (doc : JSON) (cmembers : List (GoString × JSON))
        (tag : GoString), envelopeDecodes doc = true →
        envelopeContent doc = some (JSON.object cmembers) →
        objectMap cmembers (str "type") = some (JSON.string tag) →
        tag ≠ ContentTypeText → tag ≠ ContentTypeImage → tag ≠ ContentTypeResource →
        (PromptMessage.UnmarshalJSON wire pm (some doc)).2 =
          some (GoError.errorf (str "unknown content type: " ++ tag))) ∧
    (¬ ∀ (pm : PromptMessage wire) (doc : JSON) (cmembers : List (GoString × JSON))
        (tag : GoString), membersOverflow cmembers = none →
        envelopeContent doc = some (JSON.object cmembers) →
        objectMap cmembers (str "type") = some (JSON.string tag) →
        tag ≠ ContentTypeText → tag ≠ ContentTypeImage → tag ≠ ContentTypeResource →
        (PromptMessage.UnmarshalJSON wire pm (some doc)).2 =
          some (GoError.errorf (str "unknown content type: " ++ tag))) := by
  constructor
  · intro h
    have h1 := h ⟨[], none⟩ (envelope (str "user") hugeContent)
      [(str "type", JSON.string (str "video")), (str "n", JSON.number (str "1e999"))]
      (str "video") rfl rfl rfl (by decide) (by decide) (by decide)
    have hrange : membersOverflow
        [(str "type", JSON.string (str "video")), (str "n", JSON.number (str "1e999"))] =
        some (str "1e999") := by
      simp [membersOverflow, JSON.overflow, not_fits_huge]
    rw [unmarshal_some wire _ (envelope (str "user") hugeContent) (by decide),
      decode_of_overflow wire ⟨[], none⟩ (envelope (str "user") hugeContent)
        _ _ rfl rfl hrange] at h1
    cases h1
  · intro h
    have h1 := h ⟨[], none⟩
      (JSON.object [(str "role", JSON.number (str "1")), (str "content", videoContent)])
      [(str "type", JSON.string (str "video")), (str "data", JSON.string (str "..."))]
      (str "video") rfl rfl rfl (by decide) (by decide) (by decide)
    revert h1
    decide

/-- C9 (amended): when the content payload of an envelope is an object whose
`type` member is a string other than `text`, `image` and `resource`,
`UnmarshalJSON` returns, and returns an error, whatever the variant decoders
are; when moreover line 77 decodes the envelope and no number of the content
object is outside the range of `float64`, the error is
`unknown content type: <tag>`, `Role` is the role of the envelope and
`Content` of the receiver is untouched. -/
theorem C9_unknown_content_type (V : Variants) (pm : PromptMessage V) (doc : JSON)
    (cmembers : List (GoString × JSON)) (tag : GoString)
    (hcontent : envelopeContent doc = some (JSON.object cmembers))
    (htype : objectMap cmembers (str "type") = some (JSON.string tag))
    (htext : tag ≠ ContentTypeText) (himage : tag ≠ ContentTypeImage)
    (hresource : tag ≠ ContentTypeResource) :
    (∃ pm2 err, PromptMessage.UnmarshalJSON V pm (some doc) = (pm2, some err)) ∧
      (envelopeDecodes doc = true → membersOverflow cmembers = none →
        PromptMessage.UnmarshalJSON V pm (some doc) =
          (⟨(envelopeRole doc).getD pm.Role, pm.Content⟩,
            some (GoError.errorf (str "unknown content type: " ++ tag)))) := by
  have hdispatch : ∀ pm1 : PromptMessage V,
      UnmarshalJSON.dispatch V pm1 (some (JSON.object cmembers)) tag =
        (pm1, some (GoError.errorf (str "unknown content type: " ++ tag))) := by
    intro pm1
    unfold UnmarshalJSON.dispatch
    rw [if_neg htext, if_neg himage, if_neg hresource]
  constructor
  · rcases unmarshal_paths V pm doc with ⟨pm2, err, he, _⟩ |
      ⟨cmembers2, tag2, _, _, hc, _, ht, he⟩
    · exact ⟨pm2, err, he⟩
    · rw [decodeAux_content, hcontent] at hc
      injection hc with hc
      injection hc with hc
      subst hc
      rw [htype] at ht
      injection ht with ht
      injection ht with ht
      subst ht
      exact ⟨_, _, he.trans (hdispatch _)⟩
  · intro henv hrange
    obtain ⟨hdepth, hsaved⟩ := of_envelopeDecodes pm.Role doc henv
    have hc : (decodeAux pm.Role doc).Content = some (JSON.object cmembers) := by
      rw [decodeAux_content, hcontent]
    rw [unmarshal_some V pm doc hdepth,
      decode_of_type V pm doc cmembers tag hsaved hc hrange htype, hdispatch,
      decodeAux_role]

/-- Witness of C9: the envelope with role `user` and the content
`{"type":"video","data":"..."}` of the specification. -/
theorem C9_unknown_content_type_witness :
    PromptMessage.UnmarshalJSON wire ⟨[], none⟩
        (some (envelope (str "user") videoContent)) =
      (⟨str "user", none⟩, some (GoError.errorf (str "unknown content type: video"))) :=
  (C9_unknown_content_type wire ⟨[], none⟩ (envelope (str "user") videoContent)
    [(str "type", JSON.string (str "video")), (str "data", JSON.string (str "..."))]
    (str "video") rfl rfl (by decide) (by decide) (by decide)).2 rfl rfl

/-- C10 (as stated, refuted): the well-formed envelope with role `user` and
the content `{"type":1e999}` has a `type` that is not a string, but line 83
cannot turn `1e999` into a `float64` and line 84 returns its error, not
`content type not found or invalid`. -/
theorem C10_counterexample :
    ¬ ∀ (pm : PromptMessage wire) (doc : JSON) (cmembers : List (GoString × JSON)),
        envelopeDecodes doc = true →
        envelopeContent doc = some (JSON.object cmembers) →
        (∀ tag, objectMap cmembers (str "type") ≠ some (JSON.string tag)) →
        (PromptMessage.UnmarshalJSON wire pm (some doc)).2 =
          some (GoError.errorf (str "content type not found or invalid")) := by
  intro h
  have h1 := h ⟨[], none⟩
    (envelope (str "user") (JSON.object [(str "type", JSON.number (str "1e999"))]))
    [(str "type", JSON.number (str "1e999"))] rfl rfl
    (fun tag ht => by
      have h2 : some (JSON.number (str "1e999")) = some (JSON.string tag) := ht
      cases h2)
  have hrange : membersOverflow [(str "type", JSON.number (str "1e999"))] =
      some (str "1e999") := by
    simp [membersOverflow, JSON.overflow, not_fits_huge]
  rw [unmarshal_some wire _
      (envelope (str "user") (JSON.object [(str "type", JSON.number (str "1e999"))]))
      (by decide),
    decode_of_overflow wire ⟨[], none⟩
      (envelope (str "user") (JSON.object [(str "type", JSON.number (str "1e999"))]))
      _ _ rfl rfl hrange] at h1
  cases h1

/-- C10 (amended): when line 77 decodes the envelope, its content payload is
an object without a number outside the range of `float64`, and that object
holds no string under `type` (no such member, or a number, boolean, null,
array or object), `UnmarshalJSON` returns the error
`content type not found or invalid`; the result does not depend on the
variant decoders, none of which is run. -/
theorem C10_missing_type_discriminator (V : Variants) (pm : PromptMessage V) (doc : JSON)
    (cmembers : List (GoString × JSON))
    (henv : envelopeDecodes doc = true)
    (hcontent : envelopeContent doc = some (JSON.object cmembers))
    (hrange : membersOverflow cmembers = none)
    (htype : ∀ tag, objectMap cmembers (str "type") ≠ some (JSON.string tag)) :
    PromptMessage.UnmarshalJSON V pm (some doc) =
      (⟨(envelopeRole doc).getD pm.Role, pm.Content⟩,
        some (GoError.errorf (str "content type not found or invalid"))) := by
  obtain ⟨hdepth, hsaved⟩ := of_envelopeDecodes pm.Role doc henv
  have hc : (decodeAux pm.Role doc).Content = some (JSON.object cmembers) := by
    rw [decodeAux_content, hcontent]
  rw [unmarshal_some V pm doc hdepth,
    decode_of_no_type V pm doc cmembers hsaved hc hrange htype, decodeAux_role]

/-- Witness of C10: an envelope whose content carries the boolean `true` as
`type`. -/
theorem C10_missing_type_discriminator_witness :
    PromptMessage.UnmarshalJSON wire ⟨[], none⟩
        (some (envelope (str "user")
          (JSON.object [(str "type", JSON.bool true),
            (str "text", JSON.string (str "hi"))]))) =
      (⟨str "user", none⟩,
        some (GoError.errorf (str "content type not found or invalid"))) :=
  C10_missing_type_discriminator wire ⟨[], none⟩ _
    [(str "type", JSON.bool true), (str "text", JSON.string (str "hi"))]
    rfl rfl rfl (fun tag h => by
      have h2 : some (JSON.bool true) = some (JSON.string tag) := h
      cases h2)

/-! ## Claims on decoding -/

/-- C11: when `UnmarshalJSON` succeeds, the input is a JSON text whose content
payload is an object with a string under `type`; that string is `text`,
`image` or `resource`, the decoder of the variant it names accepted the whole
content payload, `Content` holds the value that decoder returned, in that
variant, and `Role` is the role of the envelope (the receiver keeps its role
when the envelope carries none). -/
theorem C11_dispatch_on_tag (V : Variants) (pm : PromptMessage V) (data : Option JSON)
    (hok : (PromptMessage.UnmarshalJSON V pm data).2 = none) :
    ∃ doc cmembers tag, data = some doc ∧
      envelopeContent doc = some (JSON.object cmembers) ∧
      objectMap cmembers (str "type") = some (JSON.string tag) ∧
      (PromptMessage.UnmarshalJSON V pm data).1.Role = (envelopeRole doc).getD pm.Role ∧
      ((tag = ContentTypeText ∧ ∃ c, V.text (some (JSON.object cmembers)) = Except.ok c ∧
          (PromptMessage.UnmarshalJSON V pm data).1.Content = some (Content.text c)) ∨
        (tag = ContentTypeImage ∧ ∃ c, V.image (some (JSON.object cmembers)) = Except.ok c ∧
          (PromptMessage.UnmarshalJSON V pm data).1.Content = some (Content.image c)) ∨
        (tag = ContentTypeResource ∧
          ∃ c, V.resource (some (JSON.object cmembers)) = Except.ok c ∧
            (PromptMessage.UnmarshalJSON V pm data).1.Content =
              some (Content.resource c))) := by
  cases data with
  | none => exact absurd hok (fun h => Option.noConfusion h)
  | some doc =>
    rcases unmarshal_paths V pm doc with ⟨pm2, err, he, _⟩ |
      ⟨cmembers, tag, _, _, hc, _, ht, he⟩
    · rw [he] at hok
      exact absurd hok (fun h => Option.noConfusion h)
    · rw [he] at hok ⊢
      rw [decodeAux_content] at hc
      refine ⟨doc, cmembers, tag, rfl, hc, ht, ?_, ?_⟩
      · rcases dispatch_of_ok V _ _ tag hok with ⟨_, c, _, h⟩ | ⟨_, c, _, h⟩ | ⟨_, c, _, h⟩ <;>
          rw [h, ← decodeAux_role]
      · rcases dispatch_of_ok V _ _ tag hok with ⟨h1, c, hd, h⟩ | ⟨h1, c, hd, h⟩ |
          ⟨h1, c, hd, h⟩
        · exact Or.inl ⟨h1, c, hd, by rw [h]⟩
        · exact Or.inr (Or.inl ⟨h1, c, hd, by rw [h]⟩)
        · exact Or.inr (Or.inr ⟨h1, c, hd, by rw [h]⟩)

/-- Witness of C11: the content `{"type":"text","text":"hi"}` of the
specification, sent by `user`, decodes to a `TextContent` with text `hi`. -/
theorem C11_dispatch_on_tag_witness :
    PromptMessage.UnmarshalJSON wire ⟨[], none⟩ (some (envelope (str "user") hiContent)) =
      (⟨str "user", some (Content.text (TextContent.mk (str "hi")))⟩, none) ∧
    ∃ doc cmembers tag, some (envelope (str "user") hiContent) = some doc ∧
      envelopeContent doc = some (JSON.object cmembers) ∧
      objectMap cmembers (str "type") = some (JSON.string tag) ∧
      (PromptMessage.UnmarshalJSON wire ⟨[], none⟩
          (some (envelope (str "user") hiContent))).1.Role = (envelopeRole doc).getD [] ∧
      ((tag = ContentTypeText ∧ ∃ c, wire.text (some (JSON.object cmembers)) = Except.ok c ∧
          (PromptMessage.UnmarshalJSON wire ⟨[], none⟩
            (some (envelope (str "user") hiContent))).1.Content = some (Content.text c)) ∨
        (tag = ContentTypeImage ∧
          ∃ c, wire.image (some (JSON.object cmembers)) = Except.ok c ∧
            (PromptMessage.UnmarshalJSON wire ⟨[], none⟩
              (some (envelope (str "user") hiContent))).1.Content =
                some (Content.image c)) ∨
        (tag = ContentTypeResource ∧
          ∃ c, wire.resource (some (JSON.object cmembers)) = Except.ok c ∧
            (PromptMessage.UnmarshalJSON wire ⟨[], none⟩
              (some (envelope (str "user") hiContent))).1.Content =
                some (Content.resource c))) :=
  ⟨rfl, C11_dispatch_on_tag wire ⟨[], none⟩ (some (envelope (str "user") hiContent)) rfl⟩

/-- C16: on every input on which `UnmarshalJSON` returns an error, `Content`
of the receiver after the call is `Content` of the receiver before the call. -/
theorem C16_content_kept_on_error (V : Variants) (pm : PromptMessage V) (data : Option JSON)
    (herr : (PromptMessage.UnmarshalJSON V pm data).2 ≠ none) :
    (PromptMessage.UnmarshalJSON V pm data).1.Content = pm.Content := by
  cases data with
  | none => rfl
  | some doc =>
    rcases unmarshal_paths V pm doc with ⟨pm2, err, he, hcontent⟩ |
      ⟨cmembers, tag, _, _, _, _, _, he⟩
    · rw [he]
      exact hcontent
    · rw [he] at herr ⊢
      rw [dispatch_of_error V _ _ tag herr]

/-- Witness of C16: a receiver that holds the text `old` is handed the
`video` content of the specification; it still holds `old`. -/
theorem C16_content_kept_on_error_witness :
    (PromptMessage.UnmarshalJSON wire ⟨str "assistant", some (Content.text (TextContent.mk (str "old")))⟩
        (some (envelope (str "user") videoContent))).1.Content =
      some (Content.text (TextContent.mk (str "old"))) :=
  C16_content_kept_on_error wire ⟨str "assistant", some (Content.text (TextContent.mk (str "old")))⟩
    (some (envelope (str "user") videoContent)) (by decide)

/-! ## Claims on malformed input -/

theorem saveError_ne_none (saved : Option GoError) (err : GoError) :
    saveError saved err ≠ none := by
  cases saved <;> exact fun h => Option.noConfusion h

/-- A saved error stays, and a member the decoder rejects saves one. -/
theorem fold_saved_of_any {α : Type}
    (store : α × Option GoError → GoString → JSON → α × Option GoError)
    (bad : GoString × JSON → Bool)
    (hkeep : ∀ st k v, st.2 ≠ none → (store st k v).2 ≠ none)
    (hbad : ∀ st k v, bad (k, v) = true → (store st k v).2 ≠ none)
    (members : List (GoString × JSON)) (st : α × Option GoError)
    (h : st.2 ≠ none ∨ members.any bad = true) :
    (members.foldl (fun st kv => store st kv.1 kv.2) st).2 ≠ none := by
  induction members generalizing st with
  | nil =>
    rcases h with h | h
    · exact h
    · cases h
  | cons kv rest ih =>
    rw [List.foldl_cons]
    apply ih
    rcases h with h | h
    · exact Or.inl (hkeep st kv.1 kv.2 h)
    · rw [List.any_cons, Bool.or_eq_true] at h
      rcases h with h | h
      · exact Or.inl (hbad st kv.1 kv.2 h)
      · exact Or.inr h

/-- A struct decoder returns an error on an object with a member it rejects. -/
theorem decodeStruct_error {α : Type} (zero : α)
    (store : α × Option GoError → GoString → JSON → α × Option GoError)
    (bad : GoString × JSON → Bool)
    (hkeep : ∀ st k v, st.2 ≠ none → (store st k v).2 ≠ none)
    (hbad : ∀ st k v, bad (k, v) = true → (store st k v).2 ≠ none)
    (members : List (GoString × JSON)) (h : members.any bad = true) :
    ∃ err, decodeStruct zero store (some (JSON.object members)) = Except.error err := by
  have hne := fold_saved_of_any store bad hkeep hbad members (zero, none) (Or.inr h)
  cases hf : members.foldl (fun st kv => store st kv.1 kv.2) (zero, none) with
  | mk v saved =>
    rw [hf] at hne
    cases saved with
    | none => exact absurd rfl hne
    | some err =>
      refine ⟨err, ?_⟩
      simp only [decodeStruct, hf]

theorem text_store_keep (st : TextContent × Option GoError) (k : GoString) (v : JSON)
    (h : st.2 ≠ none) : (TextContent.store st k v).2 ≠ none := by
  unfold TextContent.store
  split
  · cases v <;> first | exact h | exact saveError_ne_none _ _
  · exact h

theorem text_store_bad (st : TextContent × Option GoError) (k : GoString) (v : JSON)
    (h : TextContent.mistyped (k, v) = true) : (TextContent.store st k v).2 ≠ none := by
  unfold TextContent.mistyped at h
  simp only [Bool.and_eq_true, Bool.not_eq_true', Bool.or_eq_false_iff] at h
  unfold TextContent.store
  rw [if_pos h.1]
  cases v <;> first | exact saveError_ne_none _ _ | (simp [JSON.isString, JSON.isNull] at h)

theorem image_store_keep (st : ImageContent × Option GoError) (k : GoString) (v : JSON)
    (h : st.2 ≠ none) : (ImageContent.store st k v).2 ≠ none := by
  unfold ImageContent.store
  split
  · cases v <;> first | exact h | exact saveError_ne_none _ _
  · split
    · cases v <;> first | exact h | exact saveError_ne_none _ _
    · exact h

theorem image_store_bad (st : ImageContent × Option GoError) (k : GoString) (v : JSON)
    (h : ImageContent.mistyped (k, v) = true) : (ImageContent.store st k v).2 ≠ none := by
  unfold ImageContent.mistyped at h
  simp only [Bool.and_eq_true, Bool.not_eq_true', Bool.or_eq_false_iff, Bool.or_eq_true] at h
  unfold ImageContent.store
  by_cases hd : fieldMatches k (str "data") = true
  · rw [if_pos hd]
    cases v <;> first | exact saveError_ne_none _ _ | (simp [JSON.isString, JSON.isNull] at h)
  · have hm : fieldMatches k (str "mimeType") = true := h.1.resolve_left hd
    rw [if_neg hd, if_pos hm]
    cases v <;> first | exact saveError_ne_none _ _ | (simp [JSON.isString, JSON.isNull] at h)

theorem resource_store_keep (st : EmbeddedResource × Option GoError) (k : GoString)
    (v : JSON) (h : st.2 ≠ none) : (EmbeddedResource.store st k v).2 ≠ none := by
  unfold EmbeddedResource.store
  split
  · cases v <;> first | exact h | exact saveError_ne_none _ _
  · exact h

theorem resource_store_bad (st : EmbeddedResource × Option GoError) (k : GoString)
    (v : JSON) (h : EmbeddedResource.mistyped (k, v) = true) :
    (EmbeddedResource.store st k v).2 ≠ none := by
  unfold EmbeddedResource.mistyped at h
  simp only [Bool.and_eq_true, Bool.not_eq_true', Bool.or_eq_false_iff] at h
  unfold EmbeddedResource.store
  rw [if_pos h.1]
  cases v <;> first | exact saveError_ne_none _ _ | (simp [JSON.isObject, JSON.isNull] at h)

/-- The decoder the tag selects rejects a content object with a mistyped member. -/
theorem variantFails_of_mistyped (tag : GoString) (members : List (GoString × JSON))
    (h : wireMistyped tag members = true) :
    variantFails wire tag (some (JSON.object members)) := by
  unfold wireMistyped at h
  unfold variantFails
  by_cases h1 : tag = ContentTypeText
  · rw [if_pos h1] at h
    exact Or.inl ⟨h1, decodeStruct_error _ _ _ text_store_keep text_store_bad members h⟩
  · rw [if_neg h1] at h
    by_cases h2 : tag = ContentTypeImage
    · rw [if_pos h2] at h
      exact Or.inr (Or.inl
        ⟨h2, decodeStruct_error _ _ _ image_store_keep image_store_bad members h⟩)
    · rw [if_neg h2] at h
      by_cases h3 : tag = ContentTypeResource
      · rw [if_pos h3] at h
        exact Or.inr (Or.inr
          ⟨h3, decodeStruct_error _ _ _ resource_store_keep resource_store_bad members h⟩)
      · rw [if_neg h3] at h
        cases h

/-- Whatever the decoders, `UnmarshalJSON` returns an error when the data are
no JSON text, when line 77 does not decode the envelope, when the content
payload is missing or is no object, and when the decoder the tag selects
fails. -/
theorem rejected_of_malformed (V : Variants) (pm : PromptMessage V) (data : Option JSON)
    (h : data = none ∨ ∃ doc, data = some doc ∧
      (envelopeDecodes doc = false ∨
        envelopeContent doc = none ∨
        (∃ j, envelopeContent doc = some j ∧ j.isObject = false) ∨
        (∃ cmembers tag, envelopeContent doc = some (JSON.object cmembers) ∧
          objectMap cmembers (str "type") = some (JSON.string tag) ∧
          variantFails V tag (some (JSON.object cmembers))))) :
    (PromptMessage.UnmarshalJSON V pm data).2 ≠ none := by
  rcases h with rfl | ⟨doc, rfl, h⟩
  · exact fun h => Option.noConfusion h
  · rcases unmarshal_paths V pm doc with ⟨pm2, err, he, _⟩ |
      ⟨cmembers, tag, hdepth, hs, hc, _, ht, he⟩
    · rw [he]
      exact fun h => Option.noConfusion h
    · rw [decodeAux_content] at hc
      rcases h with hwf | hnone | ⟨j, hj, hobj⟩ | ⟨cmembers2, tag2, hc2, ht2, hfail⟩
      · rcases (decodeAux_saved pm.Role doc).1 hs with hw | hnull
        · unfold envelopeDecodes at hwf
          rw [hw, decide_eq_true hdepth] at hwf
          cases hwf
        · rw [hnull] at hc
          cases hc
      · rw [hnone] at hc
        cases hc
      · rw [hj] at hc
        injection hc with hc
        rw [hc] at hobj
        cases hobj
      · rw [hc2] at hc
        injection hc with hc
        injection hc with hc
        subst hc
        rw [ht2] at ht
        injection ht with ht
        injection ht with ht
        subst ht
        rw [he]
        exact dispatch_of_variantFails V _ _ tag2 hfail

/-- C13 (as stated, refuted): the content `{"type":"text"}` does not have the
shape of a text content, whose `text` is a string, and yet `UnmarshalJSON`
returns no error: a member the payload lacks is left at its zero value. -/
theorem C13_counterexample :
    ¬ ∀ (pm : PromptMessage wire) (doc : JSON) (cmembers : List (GoString × JSON))
        (tag : GoString), envelopeContent doc = some (JSON.object cmembers) →
        objectMap cmembers (str "type") = some (JSON.string tag) →
        (tag = ContentTypeText ∨ tag = ContentTypeImage ∨ tag = ContentTypeResource) →
        wireShape tag cmembers = false →
        (PromptMessage.UnmarshalJSON wire pm (some doc)).2 ≠ none := by
  intro h
  exact h ⟨[], none⟩
    (envelope (str "user") (JSON.object [(str "type", JSON.string (str "text"))]))
    [(str "type", JSON.string (str "text"))] (str "text") rfl rfl (Or.inl rfl) rfl rfl

/-- C13 (amended): `UnmarshalJSON` returns an error, whatever the variant
decoders are, when the data are no JSON text, when line 77 does not decode the
envelope (nested too deep, no object, or a `role` that is neither a string nor
null), when the content payload is missing or is not an object, and when the
decoder of the variant its tag selects fails; and with the decoders of the
wire format it returns an error when the content object holds, under a name
of the shape its tag selects, a value of another JSON type than that shape
gives it. -/
theorem C13_malformed_rejected (V : Variants) (pm : PromptMessage V)
    (pmw : PromptMessage wire) (data : Option JSON) :
    ((data = none ∨ ∃ doc, data = some doc ∧
        (envelopeDecodes doc = false ∨
          envelopeContent doc = none ∨
          (∃ j, envelopeContent doc = some j ∧ j.isObject = false) ∨
          (∃ cmembers tag, envelopeContent doc = some (JSON.object cmembers) ∧
            objectMap cmembers (str "type") = some (JSON.string tag) ∧
            variantFails V tag (some (JSON.object cmembers))))) →
        (PromptMessage.UnmarshalJSON V pm data).2 ≠ none) ∧
      ((∃ doc cmembers tag, data = some doc ∧
          envelopeContent doc = some (JSON.object cmembers) ∧
          objectMap cmembers (str "type") = some (JSON.string tag) ∧
          wireMistyped tag cmembers = true) →
        (PromptMessage.UnmarshalJSON wire pmw data).2 ≠ none) := by
  constructor
  · exact rejected_of_malformed V pm data
  · rintro ⟨doc, cmembers, tag, hdata, hc, ht, hm⟩
    exact rejected_of_malformed wire pmw data
      (Or.inr ⟨doc, hdata, Or.inr (Or.inr (Or.inr
        ⟨cmembers, tag, hc, ht, variantFails_of_mistyped tag cmembers hm⟩))⟩)

/-- Witness of C13, one input for each way of being malformed: bytes that are
no JSON text, an array as envelope, an envelope without content, the string
`hi` as content, and a text content whose `text` is the boolean `true`. -/
theorem C13_malformed_rejected_witness :
    (PromptMessage.UnmarshalJSON wire ⟨[], none⟩ none).2 ≠ none ∧
    (PromptMessage.UnmarshalJSON wire ⟨[], none⟩ (some (JSON.array []))).2 ≠ none ∧
    (PromptMessage.UnmarshalJSON wire ⟨[], none⟩
      (some (JSON.object [(str "role", JSON.string (str "user"))]))).2 ≠ none ∧
    (PromptMessage.UnmarshalJSON wire ⟨[], none⟩
      (some (envelope (str "user") (JSON.string (str "hi"))))).2 ≠ none ∧
    (PromptMessage.UnmarshalJSON wire ⟨[], none⟩
      (some (envelope (str "user")
        (JSON.object [(str "type", JSON.string (str "text")),
          (str "text", JSON.bool true)])))).2 ≠ none :=
  ⟨(C13_malformed_rejected wire ⟨[], none⟩ ⟨[], none⟩ _).1 (Or.inl rfl),
    (C13_malformed_rejected wire ⟨[], none⟩ ⟨[], none⟩ _).1
      (Or.inr ⟨_, rfl, Or.inl rfl⟩),
    (C13_malformed_rejected wire ⟨[], none⟩ ⟨[], none⟩ _).1
      (Or.inr ⟨_, rfl, Or.inr (Or.inl rfl)⟩),
    (C13_malformed_rejected wire ⟨[], none⟩ ⟨[], none⟩ _).1
      (Or.inr ⟨_, rfl, Or.inr (Or.inr (Or.inl ⟨_, rfl, rfl⟩))⟩),
    (C13_malformed_rejected wire ⟨[], none⟩ ⟨[], none⟩ _).2
      ⟨_, _, _, rfl, rfl, rfl, rfl⟩⟩

/-! ## Claims on the round trip -/

/-- Line 77 on an encoded message: the role and the raw content, no error. -/
theorem decodeAux_encode {V : Variants} (E : Encoders V) (role0 role : GoString)
    (c : Content V) :
    decodeAux role0 (PromptMessage.encode E ⟨role, some c⟩) =
      ⟨role, some (c.encode E), none⟩ := rfl

/-- An encoded message nests one level more than its encoded content. -/
theorem depth_encode {V : Variants} (E : Encoders V) (role : GoString) (c : Content V) :
    (PromptMessage.encode E ⟨role, some c⟩).depth = (c.encode E).depth + 1 := by
  simp [PromptMessage.encode, JSON.depth, membersDepth, str]

/-- The round trip through `UnmarshalJSON` of a content value whose wire form
is the object `members`, tagged `tag`, within the limits of the decoder, when
the `switch` on `tag` gives the value back. -/
theorem roundtrip_of_dispatch (pm : PromptMessage wire) (role : GoString) (c : Content wire)
    (members : List (GoString × JSON)) (tag : GoString)
    (hobj : c.encode wireEncoders = JSON.object members)
    (hdepth : (JSON.object members).depth + 1 ≤ maxNestingDepth)
    (hrange : membersOverflow members = none)
    (htype : objectMap members (str "type") = some (JSON.string tag))
    (hdispatch : UnmarshalJSON.dispatch wire ⟨role, pm.Content⟩
        (some (JSON.object members)) tag = (⟨role, some c⟩, none)) :
    PromptMessage.UnmarshalJSON wire pm
        (some (PromptMessage.encode wireEncoders ⟨role, some c⟩)) =
      (⟨role, some c⟩, none) := by
  have haux := decodeAux_encode wireEncoders pm.Role role c
  have hd : (PromptMessage.encode wireEncoders ⟨role, some c⟩).depth ≤ maxNestingDepth := by
    rw [depth_encode, hobj]
    exact hdepth
  have hc : (decodeAux pm.Role (PromptMessage.encode wireEncoders ⟨role, some c⟩)).Content =
      some (JSON.object members) := by
    rw [haux]
    exact congrArg some hobj
  rw [unmarshal_some wire pm _ hd,
    decode_of_type wire pm _ members tag (by rw [haux]) hc hrange htype, haux]
  exact hdispatch

theorem depth_nested (n : Nat) : (nested n).depth = n + 1 := by
  induction n with
  | zero => rfl
  | succ n ih => simp [nested, JSON.depth, itemsDepth, ih]

theorem overflow_nested (n : Nat) : JSON.overflow (nested n) = none := by
  induction n with
  | zero => rfl
  | succ n ih => simp [nested, JSON.overflow, itemsOverflow, ih]

/-- A resource that holds the array of `n + 1` brackets: its wire form is
nested `n + 4` deep and holds no number. -/
theorem deep_resource (n : Nat) :
    (PromptMessage.encode wireEncoders
        ⟨str "user", some (Content.resource
          (EmbeddedResource.mk [(str "a", nested n)]))⟩).depth = n + 4 ∧
      membersOverflow [(str "a", nested n)] = none := by
  constructor
  · rw [depth_encode]
    have h0 : (Content.encode wireEncoders
        (Content.resource (EmbeddedResource.mk [(str "a", nested n)]))).depth =
        (nested n).depth + 2 := by
      simp [Content.encode, wireEncoders, JSON.depth, membersDepth]
    rw [h0, depth_nested]
  · have h1 : membersOverflow [(str "a", nested n)] = JSON.overflow (nested n) := by
      simp only [membersOverflow]
      cases JSON.overflow (nested n) <;> rfl
    rw [h1, overflow_nested]

/-- C12 (as stated, refuted), twice.  A resource whose object holds the number
`1e999` is encoded to `{"type":"resource","resource":{"n":1e999}}`; line 83
cannot turn `1e999` into a `float64` and `UnmarshalJSON` returns the error of
line 84 instead of the message.  A resource whose object holds an array of
9999 brackets is encoded to a text nested 10002 deep, which the scanner
refuses at line 77.  A bound on the depth alone, or numbers in range alone, do
not save the claim. -/
theorem C12_counterexample :
    (¬ ∀ (pm : PromptMessage wire) (role : GoString) (c : Content wire),
        (∀ r : EmbeddedResource, c = Content.resource r →
          (JSON.object r.Resource).depth + 2 ≤ maxNestingDepth) →
        PromptMessage.UnmarshalJSON wire pm
            (some (PromptMessage.encode wireEncoders ⟨role, some c⟩)) =
          (⟨role, some c⟩, none)) ∧
    (¬ ∀ (pm : PromptMessage wire) (role : GoString) (c : Content wire),
        (∀ r : EmbeddedResource, c = Content.resource r →
          membersOverflow r.Resource = none) →
        PromptMessage.UnmarshalJSON wire pm
            (some (PromptMessage.encode wireEncoders ⟨role, some c⟩)) =
          (⟨role, some c⟩, none)) := by
  constructor
  · intro h
    have h1 := congrArg Prod.snd (h ⟨[], none⟩ (str "user")
      (Content.resource (EmbeddedResource.mk [(str "n", JSON.number (str "1e999"))]))
      (fun r hr => by
        cases hr
        decide))
    have hrange : membersOverflow
        [(str "type", JSON.string ContentTypeResource),
          (str "resource", JSON.object [(str "n", JSON.number (str "1e999"))])] =
        some (str "1e999") := by
      simp [membersOverflow, JSON.overflow, not_fits_huge]
    rw [unmarshal_some wire _
        (PromptMessage.encode wireEncoders ⟨str "user", some (Content.resource
          (EmbeddedResource.mk [(str "n", JSON.number (str "1e999"))]))⟩) (by decide),
      decode_of_overflow wire ⟨[], none⟩
        (PromptMessage.encode wireEncoders ⟨str "user", some (Content.resource
          (EmbeddedResource.mk [(str "n", JSON.number (str "1e999"))]))⟩)
        _ _ rfl rfl hrange] at h1
    cases h1
  · intro h
    have h1 := congrArg Prod.snd (h ⟨[], none⟩ (str "user")
      (Content.resource (EmbeddedResource.mk [(str "a", nested 9998)]))
      (fun r hr => by
        cases hr
        exact (deep_resource 9998).2))
    have hdeep : ¬ (PromptMessage.encode wireEncoders
        ⟨str "user", some (Content.resource
          (EmbeddedResource.mk [(str "a", nested 9998)]))⟩).depth ≤ maxNestingDepth := by
      rw [(deep_resource 9998).1]
      decide
    rw [unmarshal_deep wire _ _ hdeep] at h1
    cases h1

/-- C12 (amended): a message with role `role` whose content is a text, an
image, or a resource whose object is nested at most 9998 deep and holds no
number outside the range of `float64`, encoded to its wire form and then
handed to `UnmarshalJSON` on any receiver, decodes without error to that
message: same role, same variant, same fields. -/
theorem C12_round_trip (pm : PromptMessage wire) (role : GoString) (c : Content wire)
    (hres : ∀ r : EmbeddedResource, c = Content.resource r →
      (JSON.object r.Resource).depth + 2 ≤ maxNestingDepth ∧
        membersOverflow r.Resource = none) :
    PromptMessage.UnmarshalJSON wire pm
        (some (PromptMessage.encode wireEncoders ⟨role, some c⟩)) =
      (⟨role, some c⟩, none) := by
  cases c with
  | text t =>
    exact roundtrip_of_dispatch pm role (Content.text t) _ ContentTypeText rfl
      (by simp [JSON.depth, membersDepth, maxNestingDepth]) rfl rfl rfl
  | image t =>
    exact roundtrip_of_dispatch pm role (Content.image t) _ ContentTypeImage rfl
      (by simp [JSON.depth, membersDepth, maxNestingDepth]) rfl rfl rfl
  | resource t =>
    obtain ⟨hdepth, hrange⟩ := hres t rfl
    refine roundtrip_of_dispatch pm role (Content.resource t) _ ContentTypeResource rfl
      ?_ ?_ rfl rfl
    · have h0 : (JSON.object [(str "type", JSON.string ContentTypeResource),
          (str "resource", JSON.object t.Resource)]).depth =
          (JSON.object t.Resource).depth + 1 := by
        simp [JSON.depth, membersDepth]
      rw [h0]
      exact hdepth
    · simp only [membersOverflow, JSON.overflow, hrange]

/-- Witness of C12: a resource with a string, a nested array and a nested
object, sent by `assistant` and decoded into a receiver that held something
else. -/
theorem C12_round_trip_witness :
    PromptMessage.UnmarshalJSON wire
        ⟨str "user", some (Content.text (TextContent.mk (str "old")))⟩
        (some (PromptMessage.encode wireEncoders
          ⟨str "assistant",
            some (Content.resource (EmbeddedResource.mk
              [(str "uri", JSON.string (str "file:///a.txt")),
                (str "tags", JSON.array [JSON.string (str "x"), JSON.null]),
                (str "meta", JSON.object [(str "draft", JSON.bool true)])]))⟩)) =
      (⟨str "assistant",
        some (Content.resource (EmbeddedResource.mk
          [(str "uri", JSON.string (str "file:///a.txt")),
            (str "tags", JSON.array [JSON.string (str "x"), JSON.null]),
            (str "meta", JSON.object [(str "draft", JSON.bool true)])]))⟩, none) :=
  C12_round_trip _ (str "assistant") _ (fun r hr => by
    cases hr
    exact ⟨by decide, rfl⟩)

/-! ## Claims on the inputs -/

theorem checkRun_eq (st : CallState) (l : List PromptArgument) :
    Execute.checkRun st l = (st, Execute.check st.args l) := by
  induction l with
  | nil => rfl
  | cons a rest ih =>
    unfold Execute.checkRun Execute.check
    rw [ih]
    by_cases hr : a.Required = true
    · by_cases hk : ArgMap.has st.args a.Name = true
      · rw [if_pos hr, if_pos hk, if_pos hr, if_pos hk]
      · rw [if_pos hr, if_neg hk, if_pos hr, if_neg hk]
    · rw [if_neg hr, if_neg hr]

theorem substituteRun_eq (st : ExecuteState) (entries : ArgMap) :
    Execute.substituteRun st entries =
      ⟨st.inputs, Execute.substitute st.result entries⟩ := by
  induction entries generalizing st with
  | nil => rfl
  | cons kv rest ih =>
    obtain ⟨name, value⟩ := kv
    rw [Execute.substituteRun, ih, Execute.substitute]

theorem validateRun_eq (st : CallState) (l : List PromptArgument) :
    ValidateArguments.run st l = (st, ValidateArguments.loop st.args l) := by
  induction l with
  | nil => rfl
  | cons a rest ih =>
    unfold ValidateArguments.run ValidateArguments.loop
    rw [ih]
    by_cases hr : a.Required = true
    · by_cases hk : ArgMap.has st.args a.Name = true
      · rw [if_pos hr, if_pos hk, if_pos hr, if_pos hk]
      · rw [if_pos hr, if_neg hk, if_pos hr, if_neg hk]
    · rw [if_neg hr, if_neg hr]

theorem run_eq (st : CallState) : Execute.run st = (st, st.p.Execute st.args) := by
  unfold Execute.run Prompt.Execute
  rw [checkRun_eq]
  cases Execute.check st.args st.p.Arguments with
  | some err => rfl
  | none =>
    simp only []
    rw [substituteRun_eq]

/-- C17: with the prompt and the map carried as state through every statement
of `Execute` and of `ValidateArguments`, both are after the call what they
were before it (name, description, arguments, template, entries); the values
returned are those of the functions, and a second `Execute` on the state the
first one left returns what the first one returned. -/
theorem C17_inputs_unchanged (st : CallState) :
    (Execute.run st).1 = st ∧
      (ValidateArguments.run st st.p.Arguments).1 = st ∧
      (Execute.run st).2 = st.p.Execute st.args ∧
      (ValidateArguments.run st st.p.Arguments).2 = st.p.ValidateArguments st.args ∧
      (Execute.run (Execute.run st).1).2 = (Execute.run st).2 := by
  rw [run_eq, validateRun_eq]
  refine ⟨rfl, rfl, rfl, rfl, ?_⟩
  rw [run_eq]

end Mcp
